import Mathlib

/-!
# Verification of the coordinate-navigation engine

A shallow embedding of `src/grid/coordinate-navigator.ts`, the coordinate
geometry core of the battleship repository, together with proofs of the
behavioural properties stated in the specification.

Grid axes are caller-supplied: movement along an axis is given by partial
`next`/`previous` functions (`Option`-returning, `none` at a boundary) and a
total-order comparator returning a signed integer, exactly as in the source.
The source's unbounded `while` loops are modelled with an explicit `fuel`
argument; every theorem that depends on a walk carries a "sufficient fuel"
hypothesis matching the source's caller contract that axes are finite and
acyclic.
-/

set_option maxRecDepth 10000
set_option linter.unusedSectionVars false

namespace Battleship

/-- Modelled from the spec: the repository's `utils/either` helper (not under
`src/`), the "generic two-armed outcome type used to carry success values or
typed failures without throwing": a value is either `left` (failure arm) or
`right` (success arm). -/
inductive Either (ε : Type u) (α : Type v) where
  | left (e : ε)
  | right (a : α)
deriving DecidableEq, Repr

namespace Either

/-- `Either.map`: maps the success (right) arm, leaving the failure arm alone. -/
def map (f : α → β) : Either ε α → Either ε β
  | .left e => .left e
  | .right a => .right (f a)

/-- `Either.swap`: exchanges the two arms. -/
def swap : Either ε α → Either α ε
  | .left e => .right e
  | .right a => .left a

/-- `Either.getOrElse`: the success value, or the supplied default. -/
def getOrElse (default : α) : Either ε α → α
  | .left _ => default
  | .right a => a

end Either

/-- Modelled from the spec: `grid/coordinate` (not under `src/`): "an immutable
pair `(columnIndex, rowIndex)`. Equality and hashing are structural (value
equality on both components)." -/
structure Coordinate (α : Type u) (β : Type v) where
  columnIndex : α
  rowIndex : β
deriving DecidableEq, Repr

/-- Modelled from the spec: `ship/ship-direction` (not under `src/`):
"Direction — enumerated {HORIZONTAL, VERTICAL}". -/
inductive ShipDirection where
  | HORIZONTAL
  | VERTICAL
deriving DecidableEq, Repr

/-- `CoordinateAlignment`: a direction together with the list of coordinates
aligned along it (`coordinate-navigator.ts`). -/
structure CoordinateAlignment (α : Type u) (β : Type v) where
  direction : ShipDirection
  coordinates : List (Coordinate α β)
deriving DecidableEq, Repr

/-- `NonAlignedCoordinates.forPair`: the typed failure raised by
`calculateDistance`; the source stores a message rendered from the two
coordinates, modelled here by the pair itself. -/
structure NonAlignedCoordinates (α : Type u) (β : Type v) where
  first : Coordinate α β
  second : Coordinate α β
deriving DecidableEq, Repr

/-- Immutable.js `List.sort` with a signed comparator is a stable sort; it is
modelled by `List.insertionSort` (stable) on the relation `cmp a b ≤ 0`. -/
def sortWith (cmp : γ → γ → Int) (l : List γ) : List γ :=
  l.insertionSort (fun a b => cmp a b ≤ 0)

/-- Helper for `orderedDedup`: drops elements already in `seen`. -/
def orderedDedupAux [DecidableEq γ] (seen : List γ) : List γ → List γ
  | [] => []
  | a :: rest =>
    if a ∈ seen then orderedDedupAux seen rest
    else a :: orderedDedupAux (a :: seen) rest

/-- Immutable.js `OrderedSet` built from a list: keeps the first occurrence of
each element, in encounter order. -/
def orderedDedup [DecidableEq γ] (l : List γ) : List γ :=
  orderedDedupAux [] l

/-- One insertion into an Immutable.js `Map` built from an entry list: an
existing key keeps its position and gets the new value, a new key is appended. -/
def upsert [DecidableEq κ] : List (κ × ν) → κ × ν → List (κ × ν)
  | [], e => [e]
  | (k, v) :: t, (k', v') => if k = k' then (k, v') :: t else (k, v) :: upsert t (k', v')

/-- Immutable.js `Map(entries)`: later entries with an equal key overwrite the
value, keys keep first-insertion order (the `ArrayMapNode` behaviour exercised
by the source's small maps). -/
def mapFromEntries [DecidableEq κ] (entries : List (κ × ν)) : List (κ × ν) :=
  entries.foldl upsert []

/-! ## Axis arithmetic primitives (`coordinate-navigator.ts`, free functions) -/

/-- `createIndices(originIndex, getNextIndex)`: the ordered sequence of indices
reachable from `originIndex` by repeated `getNextIndex`, starting with
`originIndex`, stopping at the first `none`.  `fuel` bounds the source's
unbounded loop: exhaustion truncates the sequence (the source would loop
forever on a cyclic axis, which the caller contract excludes). -/
def createIndices (fuel : Nat) (originIndex : γ) (getNextIndex : γ → Option γ) : List γ :=
  originIndex ::
    match fuel with
    | 0 => []
    | f + 1 =>
      match getNextIndex originIndex with
      | none => []
      | some y => createIndices f y getNextIndex

/-- `findNextIndexByStep(getNextIndex, initialValue, stepSize)`: applies
`getNextIndex` exactly `stepSize` times, `none` as soon as a boundary is hit. -/
def findNextIndexByStep (getNextIndex : γ → Option γ) (initialValue : γ) (stepSize : Nat) :
    Option γ :=
  (List.range stepSize).foldl
    (fun previousValue _ =>
      match previousValue with
      | none => none
      | some v => getNextIndex v)
    (some initialValue)

/-- `findFirstIndex(reference, findPreviousIndex)`: walks `findPreviousIndex`
from `reference` until a boundary, returning the last valid index.  On fuel
exhaustion (cyclic axis, excluded by the caller contract) the current index is
returned. -/
def findFirstIndex (fuel : Nat) (reference : γ) (findPreviousIndex : γ → Option γ) : γ :=
  match fuel with
  | 0 => reference
  | f + 1 =>
    match findPreviousIndex reference with
    | none => reference
    | some p => findFirstIndex f p findPreviousIndex

/-- `getOrigin(reference, findPreviousColumnIndex, findPreviousRowIndex)`. -/
def getOrigin (fuel : Nat) (reference : Coordinate α β)
    (findPreviousColumnIndex : α → Option α) (findPreviousRowIndex : β → Option β) :
    Coordinate α β :=
  ⟨findFirstIndex fuel reference.columnIndex findPreviousColumnIndex,
   findFirstIndex fuel reference.rowIndex findPreviousRowIndex⟩

/-- `calculateDistanceBetweenIndices(first, second, findNextIndex)`: counts the
`findNextIndex` steps from `first` to `second`; `none` when a boundary is hit
first (the source's `Either.left(undefined)`) or on fuel exhaustion. -/
def calculateDistanceBetweenIndices [DecidableEq γ] (fuel : Nat) (first second : γ)
    (findNextIndex : γ → Option γ) : Option Nat :=
  if first = second then some 0
  else
    match fuel with
    | 0 => none
    | f + 1 =>
      match findNextIndex first with
      | none => none
      | some y => (calculateDistanceBetweenIndices f y second findNextIndex).map (· + 1)

/-- `findCoordinatesAlignmentDirection(first, second)`: `VERTICAL` when the
columns coincide, else `HORIZONTAL` when the rows coincide, else `none`. -/
def findCoordinatesAlignmentDirection [DecidableEq α] [DecidableEq β]
    (first second : Coordinate α β) : Option ShipDirection :=
  if first.columnIndex = second.columnIndex then some .VERTICAL
  else if first.rowIndex = second.rowIndex then some .HORIZONTAL
  else none

/-- `findIndexGaps`'s `while` loop: steps `findNextIndex` from `next` until it
reaches `last` or a boundary, collecting every stepped-to index absent from
`sortedIndices`.  Fuel exhaustion acts like the boundary `break`. -/
def findIndexGapsWalk [DecidableEq γ] (findNextIndex : γ → Option γ) (last : γ)
    (sortedIndices : List γ) : Nat → γ → List γ
  | fuel, next =>
    if next = last then []
    else
      match fuel with
      | 0 => []
      | f + 1 =>
        match findNextIndex next with
        | none => []
        | some y =>
          (if sortedIndices.contains y then [] else [y]) ++
            findIndexGapsWalk findNextIndex last sortedIndices f y

/-- `findIndexGaps(sortedIndices, findNextIndex)`. -/
def findIndexGaps [DecidableEq γ] (fuel : Nat) (sortedIndices : List γ)
    (findNextIndex : γ → Option γ) : List γ :=
  match sortedIndices.head?, sortedIndices.getLast? with
  | some first, some _ =>
    if sortedIndices.length ≤ 1 then []
    else findIndexGapsWalk findNextIndex (sortedIndices.getLast?.getD first)
      sortedIndices fuel first
  | _, _ => []

/-- `findIndexExtremums(sortedIndices, findPreviousIndex, findNextIndex)`. -/
def findIndexExtremums (sortedIndices : List γ) (findPreviousIndex findNextIndex : γ → Option γ) :
    List γ :=
  ((match sortedIndices.head? with
    | some first => [findPreviousIndex first]
    | none => []) ++
   (match sortedIndices.getLast? with
    | some last => [findNextIndex last]
    | none => [])).filterMap id

/-! ## The navigator -/

/-- `CoordinateNavigator`: the façade bundling the caller-supplied axis
adjacency functions, per-axis comparators and the reference coordinate.  The
source's `cachedOrigin` memoisation is dropped: recomputation is idempotent
(spec §5), so the model recomputes the origin. -/
structure CoordinateNavigator (α : Type u) (β : Type v) where
  findPreviousColumnIndex : α → Option α
  findNextColumnIndex : α → Option α
  columnIndexSorter : α → α → Int
  findPreviousRowIndex : β → Option β
  findNextRowIndex : β → Option β
  rowIndexSorter : β → β → Int
  reference : Coordinate α β

variable {α : Type u} {β : Type v}

namespace CoordinateNavigator

/-- `createCoordinatesSorter()`: row-major coordinate comparator. -/
def createCoordinatesSorter (nav : CoordinateNavigator α β) :
    Coordinate α β → Coordinate α β → Int :=
  fun left right =>
    let rowSortResult := nav.rowIndexSorter left.rowIndex right.rowIndex
    if rowSortResult ≠ 0 then rowSortResult
    else nav.columnIndexSorter left.columnIndex right.columnIndex

/-- `getSurroundingCoordinates(target)`: the up-to-four orthogonally adjacent
coordinates, sorted with the coordinate sorter. -/
def getSurroundingCoordinates [DecidableEq α] [DecidableEq β]
    (nav : CoordinateNavigator α β) (target : Coordinate α β) : List (Coordinate α β) :=
  let targetColumnIndex := target.columnIndex
  let targetRowIndex := target.rowIndex
  let potentialColumnIndices :=
    [nav.findPreviousColumnIndex targetColumnIndex,
     nav.findNextColumnIndex targetColumnIndex].filterMap id
  let potentialRowIndices :=
    [nav.findPreviousRowIndex targetRowIndex,
     nav.findNextRowIndex targetRowIndex].filterMap id
  sortWith nav.createCoordinatesSorter
    (potentialColumnIndices.map (fun columnIndex => ⟨columnIndex, targetRowIndex⟩) ++
     potentialRowIndices.map (fun rowIndex => ⟨targetColumnIndex, rowIndex⟩))

/-- `getGridOrigin()` (without the memoisation, see `CoordinateNavigator`). -/
def getGridOrigin (nav : CoordinateNavigator α β) (fuel : Nat) : Coordinate α β :=
  getOrigin fuel nav.reference nav.findPreviousColumnIndex nav.findPreviousRowIndex

/-- `calculateDistance(first, second)`: canonicalises the argument order with
the coordinate sorter (the source's self-recursive swap, fuelled), then walks
the shared axis.  `none` models the source's non-termination on a comparator
for which both orders demand a swap; `some (.left _)` is the source's
`Either.left(NonAlignedCoordinates)`. -/
def calculateDistance [DecidableEq α] [DecidableEq β] (nav : CoordinateNavigator α β) :
    Nat → Coordinate α β → Coordinate α β →
      Option (Either (NonAlignedCoordinates α β) Nat)
  | 0, _, _ => none
  | f + 1, first, second =>
    if nav.createCoordinatesSorter first second > 0 then
      nav.calculateDistance f second first
    else
      let error : NonAlignedCoordinates α β := ⟨first, second⟩
      if first.columnIndex = second.columnIndex then
        some (match calculateDistanceBetweenIndices f first.rowIndex second.rowIndex
            nav.findNextRowIndex with
          | some d => .right d
          | none => .left error)
      else if first.rowIndex = second.rowIndex then
        some (match calculateDistanceBetweenIndices f first.columnIndex second.columnIndex
            nav.findNextColumnIndex with
          | some d => .right d
          | none => .left error)
      else some (.left error)

end CoordinateNavigator

/-! ## `findAlignments` machinery -/

/-- `CoordinateAlignmentCandidate`: a candidate paired with its alignment
direction relative to the reference and its distance to it.  The source stores
a JS number that is `NaN` for a failed distance; since every successful
distance is a natural count, the number is modelled as `Option Nat` with
`none` for `NaN`. -/
structure CoordinateAlignmentCandidate (α : Type u) (β : Type v) where
  candidate : Coordinate α β
  alignment : Option ShipDirection
  distance : Option Nat
deriving DecidableEq, Repr

/-- `Number.isInteger` on the distance field: `NaN` is not an integer, every
successful distance (a natural count) is. -/
def jsIsInteger (distance : Option Nat) : Bool :=
  distance.isSome

/-- `distance <= maxDistance` on the distance field: any comparison with `NaN`
is false. -/
def jsLeNat (distance : Option Nat) (maxDistance : Nat) : Bool :=
  match distance with
  | none => false
  | some d => d ≤ maxDistance

namespace CoordinateNavigator

variable [DecidableEq α] [DecidableEq β]

/-- `mapCandidateToPotentialAlignment(candidate, reference)` (closure inside
`findAlignments`; the captured `this` and the walk fuel are explicit here).
`distance` is the source's `calculateDistance(...).getOrElse(NaN)`. -/
def mapCandidateToPotentialAlignment (nav : CoordinateNavigator α β) (fuel : Nat)
    (candidate reference : Coordinate α β) : CoordinateAlignmentCandidate α β :=
  { candidate := candidate
    alignment := findCoordinatesAlignmentDirection candidate reference
    distance :=
      match nav.calculateDistance fuel candidate reference with
      | some (.right d) => some d
      | _ => none }

/-- `filterInvalidAlignmentCandidate(alignmentCandidate)` (closure inside
`findAlignments`; the captured `maxDistance` is explicit here). -/
def filterInvalidAlignmentCandidate (maxDistance : Nat)
    (alignmentCandidate : CoordinateAlignmentCandidate α β) : Bool :=
  alignmentCandidate.alignment.isSome &&
    jsIsInteger alignmentCandidate.distance &&
    jsLeNat alignmentCandidate.distance maxDistance

/-- `groupCandidatesFromDirection(direction, alignmentCandidates, reference)`
(closure inside `findAlignments`; the captured coordinate sorter is explicit). -/
def groupCandidatesFromDirection (coordinatesSorter : Coordinate α β → Coordinate α β → Int)
    (direction : ShipDirection) (alignmentCandidates : List (CoordinateAlignmentCandidate α β))
    (reference : Coordinate α β) : CoordinateAlignment α β :=
  { direction := direction
    coordinates :=
      sortWith coordinatesSorter
        (((alignmentCandidates.filter (fun ac => ac.alignment = some direction)).map
            (fun ac => ac.candidate)) ++ [reference]) }

/-- `filterRedundantAlignments(alignment, alignmentIndex, alignments)` (closure
inside `findAlignments`): keeps an alignment unless every one of its
coordinates is contained in the immediately preceding alignment. -/
def filterRedundantAlignments (alignment : CoordinateAlignment α β) (alignmentIndex : Nat)
    (alignments : List (CoordinateAlignment α β)) : Bool :=
  if alignmentIndex = 0 then true
  else
    match alignments.get? (alignmentIndex - 1) with
    | none => true
    | some previousAlignment =>
      !(alignment.coordinates.foldl
          (fun alignmentIsContained coordinate =>
            alignmentIsContained && previousAlignment.coordinates.contains coordinate)
          true)

/-- `findAlignments` up to (and including) the `size > 1` filter: the sorted
candidate map, per-reference validation, per-direction grouping and
flattening.  The final redundancy filter is applied on top of this list by
`findAlignments`. -/
def findAlignmentsBeforeRedundancyFilter (nav : CoordinateNavigator α β) (fuel : Nat)
    (coordinates : List (Coordinate α β)) (maxDistance : Nat) :
    List (CoordinateAlignment α β) :=
  let coordinatesSorter := nav.createCoordinatesSorter
  let sortedCoordinates := sortWith coordinatesSorter coordinates
  let candidatesMap :=
    mapFromEntries
      (sortedCoordinates.enum.map
        (fun p => (p.2, sortedCoordinates.drop (p.1 + 1))))
  ((((candidatesMap.filter (fun e => 0 < e.2.length)).map
      (fun e => (e.1,
        (e.2.map (fun c => nav.mapCandidateToPotentialAlignment fuel c e.1)).filter
          (filterInvalidAlignmentCandidate maxDistance)))).filter
      (fun e => 0 < e.2.length)).map
      (fun e =>
        [groupCandidatesFromDirection coordinatesSorter .HORIZONTAL e.2 e.1,
         groupCandidatesFromDirection coordinatesSorter .VERTICAL e.2 e.1])).flatten.filter
    (fun a => 1 < a.coordinates.length)

/-- `findAlignments(coordinates, maxDistance)`. -/
def findAlignments (nav : CoordinateNavigator α β) (fuel : Nat)
    (coordinates : List (Coordinate α β)) (maxDistance : Nat) :
    List (CoordinateAlignment α β) :=
  let alignments := nav.findAlignmentsBeforeRedundancyFilter fuel coordinates maxDistance
  (alignments.enum.filter
      (fun p => filterRedundantAlignments p.2 p.1 alignments)).map (fun p => p.2)

/-- `findAlignmentGaps(alignment)`: the coordinates missing inside the
alignment's span.  The orthogonal index is taken from the (unsorted) first
coordinate, as in the source. -/
def findAlignmentGaps (nav : CoordinateNavigator α β) (fuel : Nat)
    (alignment : CoordinateAlignment α β) : List (Coordinate α β) :=
  if alignment.coordinates.length ≤ 1 then []
  else
    match alignment.coordinates.head? with
    | none => []
    | some firstCoordinate =>
      match alignment.direction with
      | .HORIZONTAL =>
        let rowIndex := firstCoordinate.rowIndex
        let missingColumns :=
          findIndexGaps fuel
            (orderedDedup
              ((sortWith nav.createCoordinatesSorter alignment.coordinates).map
                (fun c => c.columnIndex)))
            nav.findNextColumnIndex
        missingColumns.map (fun columnIndex => ⟨columnIndex, rowIndex⟩)
      | .VERTICAL =>
        let columnIndex := firstCoordinate.columnIndex
        let missingRows :=
          findIndexGaps fuel
            (orderedDedup
              ((sortWith nav.createCoordinatesSorter alignment.coordinates).map
                (fun c => c.rowIndex)))
            nav.findNextRowIndex
        missingRows.map (fun rowIndex => ⟨columnIndex, rowIndex⟩)

/-- `findNextExtremums(alignment)`: the coordinates just beyond both ends of
the alignment. -/
def findNextExtremums (nav : CoordinateNavigator α β)
    (alignment : CoordinateAlignment α β) : List (Coordinate α β) :=
  if alignment.coordinates.length = 0 then []
  else
    match alignment.coordinates.head? with
    | none => []
    | some firstCoordinate =>
      match alignment.direction with
      | .HORIZONTAL =>
        let rowIndex := firstCoordinate.rowIndex
        (findIndexExtremums
          (orderedDedup
            ((sortWith nav.createCoordinatesSorter alignment.coordinates).map
              (fun c => c.columnIndex)))
          nav.findPreviousColumnIndex nav.findNextColumnIndex).map
          (fun columnIndex => ⟨columnIndex, rowIndex⟩)
      | .VERTICAL =>
        let columnIndex := firstCoordinate.columnIndex
        (findIndexExtremums
          (orderedDedup
            ((sortWith nav.createCoordinatesSorter alignment.coordinates).map
              (fun c => c.rowIndex)))
          nav.findPreviousRowIndex nav.findNextRowIndex).map
          (fun rowIndex => ⟨columnIndex, rowIndex⟩)

end CoordinateNavigator

/-! ## Diagonal traversal -/

/-- `LoopableIndices`: a cyclic cursor over an ordered sequence of indices.
The mutable `nextIndexIndex` field is modelled by explicit state passing. -/
structure LoopableIndices (γ : Type u) where
  indices : List γ
  initialIndex : γ
  nextIndexIndex : Option Nat
deriving Repr

/-- `LoopableIndices.getNextIndex()`: the first call returns the initial index
(recording its position, `List.indexOf` for Immutable's `keyOf`); subsequent
calls step forward, wrapping past the end.  The source's out-of-range `get`
after a malformed construction (initial index absent, asserted against in the
constructor) is modelled with the initial index as junk default. -/
def LoopableIndices.getNextIndex [DecidableEq γ] (li : LoopableIndices γ) :
    γ × LoopableIndices γ :=
  match li.nextIndexIndex with
  | none =>
    (li.initialIndex, { li with nextIndexIndex := some (li.indices.indexOf li.initialIndex) })
  | some nextIndexIndex =>
    let newNextIndexIndex :=
      if nextIndexIndex + 1 < li.indices.length then nextIndexIndex + 1 else 0
    (li.indices.getD newNextIndexIndex li.initialIndex,
     { li with nextIndexIndex := some newNextIndexIndex })

/-- Maps a list while threading a state left to right (the effect of calling a
mutating method inside `List.map`). -/
def mapWithState (f : σ → a → b × σ) : σ → List a → List b
  | _, [] => []
  | s, x :: t =>
    let r := f s x
    r.1 :: mapWithState f r.2 t

/-- `traverseGridDiagonally(columnIndices, minShipSize,
potentialStartingCoordinates, startingCoordinate, findNextRowIndex)`: one
diagonal sweep; each column gets a starting row drawn cyclically from the
starting rows, then steps down by `minShipSize`. -/
def traverseGridDiagonally [DecidableEq α] [DecidableEq β] (fuel : Nat)
    (columnIndices : List α) (minShipSize : Nat)
    (potentialStartingCoordinates : List (Coordinate α β))
    (startingCoordinate : Coordinate α β) (findNextRowIndex : β → Option β) :
    List (Coordinate α β) :=
  let loopableStartingRows : LoopableIndices β :=
    { indices := potentialStartingCoordinates.map (fun c => c.rowIndex)
      initialIndex := startingCoordinate.rowIndex
      nextIndexIndex := none }
  let findNextRowByStep : β → Option β := fun initialValue =>
    findNextIndexByStep findNextRowIndex initialValue minShipSize
  let traverseStartingCoordinates :=
    mapWithState
      (fun li startingColumnIndex =>
        let r := LoopableIndices.getNextIndex li
        ((⟨startingColumnIndex, r.1⟩ : Coordinate α β), r.2))
      loopableStartingRows columnIndices
  traverseStartingCoordinates.flatMap
    (fun traverseFirstCoordinate =>
      (createIndices fuel traverseFirstCoordinate.rowIndex findNextRowByStep).map
        (fun rowIndex => ⟨traverseFirstCoordinate.columnIndex, rowIndex⟩))

namespace CoordinateNavigator

variable [DecidableEq α] [DecidableEq β]

/-- `findStartingCoordinates(minShipSize)`: the coordinates of the origin
column whose rows are `0 .. minShipSize-1` steps below the origin row. -/
def findStartingCoordinates (nav : CoordinateNavigator α β) (fuel : Nat) (minShipSize : Nat) :
    List (Coordinate α β) :=
  let origin := nav.getGridOrigin fuel
  sortWith nav.createCoordinatesSorter
    ((((List.range minShipSize).map
        (fun distanceToOrigin =>
          findNextIndexByStep nav.findNextRowIndex origin.rowIndex distanceToOrigin)).filterMap
        id).map
      (fun newRowIndex => ⟨origin.columnIndex, newRowIndex⟩))

/-- `traverseGridDiagonallyInDirection(minShipSize)`: one diagonal sweep per
starting coordinate. -/
def traverseGridDiagonallyInDirection (nav : CoordinateNavigator α β) (fuel : Nat)
    (minShipSize : Nat) : List (List (Coordinate α β)) :=
  let origin := nav.getGridOrigin fuel
  let columnIndices := createIndices fuel origin.columnIndex nav.findNextColumnIndex
  let startingCoordinates := nav.findStartingCoordinates fuel minShipSize
  startingCoordinates.map
    (fun startingCoordinate =>
      traverseGridDiagonally fuel columnIndices minShipSize startingCoordinates
        startingCoordinate nav.findNextRowIndex)

/-- `mirror(coordinates)` (private in the source): reflects each coordinate's
row across the grid's full row sequence.  Where the source asserts that the
row is present in the sequence (`assertIsNotUndefined`), the model returns the
row unchanged as junk; every use in this development is within the domain. -/
def mirror (nav : CoordinateNavigator α β) (fuel : Nat)
    (coordinates : List (Coordinate α β)) : List (Coordinate α β) :=
  let origin := nav.getGridOrigin fuel
  let rowIndices := createIndices fuel origin.rowIndex nav.findNextRowIndex
  let reversedRowIndices := rowIndices.reverse
  let getReversedRowIndex : β → β := fun rowIndex =>
    reversedRowIndices.getD (rowIndices.indexOf rowIndex) rowIndex
  coordinates.map (fun c => ⟨c.columnIndex, getReversedRowIndex c.rowIndex⟩)

/-- `traverseGrid(minShipSize)`: every diagonal sweep followed by its mirror,
empty sweeps dropped. -/
def traverseGrid (nav : CoordinateNavigator α β) (fuel : Nat) (minShipSize : Nat) :
    List (List (Coordinate α β)) :=
  ((nav.traverseGridDiagonallyInDirection fuel minShipSize).flatMap
      (fun list => [list, nav.mirror fuel list])).filter
    (fun list => 0 < list.length)

end CoordinateNavigator

/-! ## Well-formed axes

The spec's caller contract: each axis's `next`/`previous` functions enumerate a
finite, acyclic, linearly ordered index sequence, and the comparator agrees
with that order.  A sequence witnessing this is a *chain list*. -/

/-- `next` follows the tail of the chain from `x` and yields `none` at its end. -/
def linksNext [DecidableEq γ] (next : γ → Option γ) : γ → List γ → Bool
  | x, [] => next x = none
  | x, y :: t => next x = some y && linksNext next y t

/-- The whole list is a forward chain of `next`. -/
def chainNext [DecidableEq γ] (next : γ → Option γ) : List γ → Bool
  | [] => true
  | x :: t => linksNext next x t

/-- `prev` steps each element of the tail back to its predecessor. -/
def linksPrev [DecidableEq γ] (prev : γ → Option γ) : γ → List γ → Bool
  | _, [] => true
  | x, y :: t => prev y = some x && linksPrev prev y t

/-- The whole list is a backward chain of `prev`, with `none` at the head. -/
def chainPrev [DecidableEq γ] (prev : γ → Option γ) : List γ → Bool
  | [] => true
  | x :: t => prev x = none && linksPrev prev x t

/-- The comparator's sign agrees with the positions in the chain list. -/
def sorterConsistent (sorter : γ → γ → Int) (L : List γ) : Bool :=
  L.enum.all fun p => L.enum.all fun q =>
    (decide (sorter p.2 q.2 > 0) = decide (p.1 > q.1)) &&
      (decide (sorter p.2 q.2 = 0) = decide (p.1 = q.1))

/-- A navigator is well formed over the chain lists `cols` and `rows` when both
axes are finite acyclic chains, both comparators agree with them, and the
reference coordinate lies on the grid. -/
def wellFormedGrid [DecidableEq α] [DecidableEq β] (nav : CoordinateNavigator α β)
    (cols : List α) (rows : List β) : Bool :=
  chainNext nav.findNextColumnIndex cols &&
    chainPrev nav.findPreviousColumnIndex cols &&
    chainNext nav.findNextRowIndex rows &&
    chainPrev nav.findPreviousRowIndex rows &&
    sorterConsistent nav.columnIndexSorter cols &&
    sorterConsistent nav.rowIndexSorter rows &&
    cols.contains nav.reference.columnIndex &&
    rows.contains nav.reference.rowIndex

/-! ## The spec's example grid

Lettered columns A–E (encoded 0–4) and numeric rows 1–5, step adjacency ±1
with A/1 and E/5 as boundaries, numeric comparators, reference A1. -/

/-- Column indices A–E encoded as 0–4. -/
def cols5 : List Nat := [0, 1, 2, 3, 4]

/-- Row indices 1–5. -/
def rows5 : List Nat := [1, 2, 3, 4, 5]

/-- The navigator for the spec's example 5×5 grid. -/
def nav5 : CoordinateNavigator Nat Nat :=
  { findPreviousColumnIndex := fun c => if c = 0 then none else some (c - 1)
    findNextColumnIndex := fun c => if c < 4 then some (c + 1) else none
    columnIndexSorter := fun a b => (a : Int) - (b : Int)
    findPreviousRowIndex := fun r => if r ≤ 1 then none else some (r - 1)
    findNextRowIndex := fun r => if r < 5 then some (r + 1) else none
    rowIndexSorter := fun a b => (a : Int) - (b : Int)
    reference := ⟨0, 1⟩ }

/-! ## Contiguous runs (placements of a ship on the grid) -/

/-- The indices follow each other by single `next` steps. -/
def contiguousSteps [DecidableEq γ] (next : γ → Option γ) : List γ → Bool
  | [] => true
  | [_] => true
  | x :: y :: t => next x = some y && contiguousSteps next (y :: t)

/-- A vertical run: all cells in one column, rows adjacent by single steps. -/
def isVerticalRun [DecidableEq α] [DecidableEq β] (nav : CoordinateNavigator α β)
    (run : List (Coordinate α β)) : Bool :=
  match run with
  | [] => true
  | c :: _ =>
    run.all (fun d => d.columnIndex = c.columnIndex) &&
      contiguousSteps nav.findNextRowIndex (run.map (fun d => d.rowIndex))

/-- A horizontal run: all cells in one row, columns adjacent by single steps. -/
def isHorizontalRun [DecidableEq α] [DecidableEq β] (nav : CoordinateNavigator α β)
    (run : List (Coordinate α β)) : Bool :=
  match run with
  | [] => true
  | c :: _ =>
    run.all (fun d => d.rowIndex = c.rowIndex) &&
      contiguousSteps nav.findNextColumnIndex (run.map (fun d => d.columnIndex))

/-! ## Chain-list lemmas -/

section ChainLemmas

variable {γ : Type u} [DecidableEq γ] {next prev : γ → Option γ}

theorem linksNext_getElem {x : γ} {t : List γ} (h : linksNext next x t = true) :
    ∀ i, (hi : i < (x :: t).length) → next (x :: t)[i] = (x :: t)[i + 1]? := by
  induction t generalizing x with
  | nil =>
    intro i hi
    simp only [List.length_cons, List.length_nil] at hi
    interval_cases i
    · simpa [linksNext] using h
  | cons y t ih =>
    intro i hi
    simp only [linksNext, Bool.and_eq_true, decide_eq_true_eq] at h
    cases i with
    | zero => simpa using h.1
    | succ k =>
      have hk : k < (y :: t).length := by
        simpa [List.length_cons] using Nat.lt_of_succ_lt_succ hi
      simpa using ih h.2 k hk

theorem chainNext_getElem {L : List γ} (h : chainNext next L = true) {i : Nat}
    (hi : i < L.length) : next L[i] = L[i + 1]? := by
  cases L with
  | nil => simp at hi
  | cons x t => exact linksNext_getElem h i hi

theorem chainNext_getElem_succ {L : List γ} (h : chainNext next L = true) {i : Nat}
    (hi : i + 1 < L.length) : next L[i] = some L[i + 1] := by
  have := chainNext_getElem h (Nat.lt_of_succ_lt hi)
  rwa [List.getElem?_eq_getElem hi] at this

theorem chainNext_last {L : List γ} (h : chainNext next L = true) {i : Nat}
    (hi : i < L.length) (hlast : i + 1 = L.length) : next L[i] = none := by
  have := chainNext_getElem h hi
  rwa [List.getElem?_eq_none (by omega)] at this

theorem linksPrev_getElem {x : γ} {t : List γ} (h : linksPrev prev x t = true) :
    ∀ i, (hi : i + 1 < (x :: t).length) → prev (x :: t)[i + 1] = some (x :: t)[i] := by
  induction t generalizing x with
  | nil => intro i hi; simp at hi
  | cons y t ih =>
    intro i hi
    simp only [linksPrev, Bool.and_eq_true, decide_eq_true_eq] at h
    cases i with
    | zero => simpa using h.1
    | succ k =>
      have hk : k + 1 < (y :: t).length := by
        simpa [List.length_cons] using Nat.lt_of_succ_lt_succ hi
      simpa using ih h.2 k hk

theorem chainPrev_head {L : List γ} (h : chainPrev prev L = true) (hne : L ≠ []) :
    prev (L.head hne) = none := by
  cases L with
  | nil => exact absurd rfl hne
  | cons x t =>
    simp only [chainPrev, Bool.and_eq_true, decide_eq_true_eq] at h
    simpa using h.1

theorem chainPrev_getElem_succ {L : List γ} (h : chainPrev prev L = true) {i : Nat}
    (hi : i + 1 < L.length) : prev L[i + 1] = some L[i] := by
  cases L with
  | nil => simp at hi
  | cons x t =>
    simp only [chainPrev, Bool.and_eq_true, decide_eq_true_eq] at h
    exact linksPrev_getElem h.2 i hi

theorem sorterConsistent_spec {sorter : γ → γ → Int} {L : List γ}
    (h : sorterConsistent sorter L = true) {i j : Nat} (hi : i < L.length)
    (hj : j < L.length) :
    (sorter L[i] L[j] > 0 ↔ i > j) ∧ (sorter L[i] L[j] = 0 ↔ i = j) := by
  have hmi : ((i, L[i]) : Nat × γ) ∈ L.enum := by
    rw [List.mem_enum_iff_getElem?]
    exact List.getElem?_eq_getElem hi
  have hmj : ((j, L[j]) : Nat × γ) ∈ L.enum := by
    rw [List.mem_enum_iff_getElem?]
    exact List.getElem?_eq_getElem hj
  have h1 := List.all_eq_true.mp (List.all_eq_true.mp h _ hmi) _ hmj
  simp only [Bool.and_eq_true, decide_eq_true_eq, decide_eq_decide] at h1
  exact h1

theorem sorterConsistent_gt {sorter : γ → γ → Int} {L : List γ}
    (h : sorterConsistent sorter L = true) {i j : Nat} (hi : i < L.length)
    (hj : j < L.length) : sorter L[i] L[j] > 0 ↔ i > j :=
  (sorterConsistent_spec h hi hj).1

theorem sorterConsistent_eq_zero {sorter : γ → γ → Int} {L : List γ}
    (h : sorterConsistent sorter L = true) {i j : Nat} (hi : i < L.length)
    (hj : j < L.length) : sorter L[i] L[j] = 0 ↔ i = j :=
  (sorterConsistent_spec h hi hj).2

theorem sorterConsistent_le {sorter : γ → γ → Int} {L : List γ}
    (h : sorterConsistent sorter L = true) {i j : Nat} (hi : i < L.length)
    (hj : j < L.length) : sorter L[i] L[j] ≤ 0 ↔ i ≤ j := by
  have := sorterConsistent_gt h hi hj
  omega

theorem sorterConsistent_nodup {sorter : γ → γ → Int} {L : List γ}
    (h : sorterConsistent sorter L = true) : L.Nodup := by
  rw [List.nodup_iff_injective_get]
  intro ⟨i, hi⟩ ⟨j, hj⟩ heq
  simp only [List.get_eq_getElem] at heq
  have h0 : sorter L[i] L[j] = 0 := by
    have : sorter L[i] L[i] = 0 := (sorterConsistent_eq_zero h hi hi).mpr rfl
    rw [heq] at this ⊢
    exact this
  have := (sorterConsistent_eq_zero h hi hj).mp h0
  simpa using this

end ChainLemmas

/-! ## Walk lemmas: the fuelled loops compute the expected chain segments -/

section WalkLemmas

variable {γ : Type u} [DecidableEq γ] {next prev : γ → Option γ} {L : List γ}

theorem findFirstIndex_chain (h : chainPrev prev L = true) :
    ∀ (i : Nat) (hi : i < L.length) (fuel : Nat), i ≤ fuel →
      findFirstIndex fuel L[i] prev =
        L.get ⟨0, Nat.lt_of_le_of_lt (Nat.zero_le i) hi⟩ := by
  intro i
  induction i with
  | zero =>
    intro hi fuel _
    have hhead : prev L[0] = none := by
      have := chainPrev_head h (L.ne_nil_of_length_pos (Nat.lt_of_le_of_lt (Nat.zero_le 0) hi))
      rwa [List.head_eq_getElem] at this
    cases fuel with
    | zero => rfl
    | succ f => simp [findFirstIndex, hhead]
  | succ k ih =>
    intro hi fuel hfuel
    obtain ⟨f, rfl⟩ : ∃ f, fuel = f + 1 := ⟨fuel - 1, by omega⟩
    have hstep : prev L[k + 1] = some L[k] := chainPrev_getElem_succ h hi
    simp only [findFirstIndex, hstep]
    exact ih (Nat.lt_of_succ_lt hi) f (by omega)

theorem createIndices_chain (h : chainNext next L = true) :
    ∀ (i : Nat) (hi : i < L.length) (fuel : Nat), L.length - 1 - i ≤ fuel →
      createIndices fuel L[i] next = L.drop i := by
  intro i hi fuel hfuel
  induction fuel generalizing i with
  | zero =>
    have hlast : i + 1 = L.length := by omega
    have := chainNext_last h hi hlast
    rw [createIndices, List.drop_eq_getElem_cons hi]
    have : L.drop (i + 1) = [] := List.drop_eq_nil_of_le (by omega)
    simp [this]
  | succ f ih =>
    rw [createIndices, List.drop_eq_getElem_cons hi]
    by_cases hend : i + 1 < L.length
    · rw [chainNext_getElem_succ h hend]
      show L[i] :: createIndices f L[i + 1] next = _
      rw [ih (i + 1) hend (by omega)]
    · have hlast : i + 1 = L.length := by omega
      rw [chainNext_last h hi hlast]
      have : L.drop (i + 1) = [] := List.drop_eq_nil_of_le (by omega)
      simp [this]

theorem findNextIndexByStep_chain (h : chainNext next L = true) :
    ∀ (s : Nat) (i : Nat) (hi : i < L.length),
      findNextIndexByStep next L[i] s =
        if h' : i + s < L.length then some (L.get ⟨i + s, h'⟩) else none := by
  have hfold : ∀ (s : Nat) (o : Option γ),
      (List.range s).foldl
        (fun previousValue _ =>
          match previousValue with
          | none => none
          | some v => next v) o =
      Nat.rec o (fun _ acc => match acc with | none => none | some v => next v) s := by
    intro s
    induction s with
    | zero => intro o; rfl
    | succ k ih =>
      intro o
      rw [List.range_succ, List.foldl_append]
      rw [ih o]
      rfl
  intro s
  induction s with
  | zero =>
    intro i hi
    simp only [findNextIndexByStep, List.range_zero, List.foldl_nil, Nat.add_zero]
    rw [dif_pos hi]
    rfl
  | succ k ih =>
    intro i hi
    unfold findNextIndexByStep at ih ⊢
    rw [hfold (k + 1) (some L[i])]
    have hk := ih i hi
    rw [hfold k (some L[i])] at hk
    show (match
        (Nat.rec (some L[i])
          (fun _ acc => match acc with | none => none | some v => next v) k : Option γ) with
      | none => none
      | some v => next v) = _
    rw [hk]
    by_cases hik : i + k < L.length
    · rw [dif_pos hik]
      show next L[i + k] = _
      rw [chainNext_getElem h hik]
      by_cases hik1 : i + (k + 1) < L.length
      · rw [dif_pos hik1, List.getElem?_eq_getElem (by omega)]
        rfl
      · rw [dif_neg hik1, List.getElem?_eq_none (by omega)]
    · rw [dif_neg hik, dif_neg (by omega)]

theorem calculateDistanceBetweenIndices_chain (h : chainNext next L = true)
    (hnd : L.Nodup) :
    ∀ (j i : Nat) (hi : i < L.length) (hj : j < L.length) (fuel : Nat),
      i ≤ j → j - i ≤ fuel →
      calculateDistanceBetweenIndices fuel L[i] L[j] next = some (j - i) := by
  intro j i hi hj fuel hij hfuel
  induction fuel generalizing i with
  | zero =>
    have : i = j := by omega
    subst this
    simp [calculateDistanceBetweenIndices]
  | succ f ih =>
    by_cases heq : i = j
    · subst heq
      simp [calculateDistanceBetweenIndices]
    · have hne : L[i] ≠ L[j] := by
        intro hc
        exact heq ((hnd.getElem_inj_iff).mp hc)
      have hstep : next L[i] = some L[i + 1] := chainNext_getElem_succ h (by omega)
      rw [calculateDistanceBetweenIndices, if_neg hne, hstep]
      show (calculateDistanceBetweenIndices f L[i + 1] L[j] next).map (· + 1) = _
      rw [ih (i + 1) (by omega) (by omega) (by omega)]
      show some (j - (i + 1) + 1) = some (j - i)
      congr 1
      omega

theorem calculateDistanceBetweenIndices_chain_rev (h : chainNext next L = true)
    (hnd : L.Nodup) :
    ∀ (j i : Nat) (hi : i < L.length) (hj : j < L.length) (fuel : Nat),
      j < i → L.length - 1 - i ≤ fuel →
      calculateDistanceBetweenIndices fuel L[i] L[j] next = none := by
  intro j i hi hj fuel hji hfuel
  induction fuel generalizing i with
  | zero =>
    have hlast : i + 1 = L.length := by omega
    have hne : L[i] ≠ L[j] := by
      intro hc
      have := (hnd.getElem_inj_iff).mp hc
      omega
    rw [calculateDistanceBetweenIndices, if_neg hne]
  | succ f ih =>
    have hne : L[i] ≠ L[j] := by
      intro hc
      have := (hnd.getElem_inj_iff).mp hc
      omega
    rw [calculateDistanceBetweenIndices, if_neg hne]
    by_cases hend : i + 1 < L.length
    · rw [chainNext_getElem_succ h hend]
      show (calculateDistanceBetweenIndices f L[i + 1] L[j] next).map (· + 1) = _
      rw [ih (i + 1) hend (by omega) (by omega)]
      rfl
    · rw [chainNext_last h hi (by omega)]

end WalkLemmas

/-! ## The gap walk computes the uncovered chain segment -/

section GapLemmas

variable {γ : Type u} [DecidableEq γ] {next : γ → Option γ} {L : List γ}

theorem findIndexGapsWalk_chain (h : chainNext next L = true) (hnd : L.Nodup) :
    ∀ (j i : Nat) (hi : i < L.length) (hj : j < L.length) (fuel : Nat) (S : List γ),
      i ≤ j → j - i ≤ fuel →
      findIndexGapsWalk next L[j] S fuel L[i] =
        ((L.drop (i + 1)).take (j - i)).filter (fun y => !S.contains y) := by
  intro j i hi hj fuel S hij hfuel
  induction fuel generalizing i with
  | zero =>
    have : i = j := by omega
    subst this
    simp [findIndexGapsWalk]
  | succ f ih =>
    by_cases heq : i = j
    · subst heq
      simp [findIndexGapsWalk]
    · have hlt : i < j := by omega
      have hne : L[i] ≠ L[j] := fun hc => heq ((hnd.getElem_inj_iff).mp hc)
      have hstep : next L[i] = some L[i + 1] := chainNext_getElem_succ h (by omega)
      rw [findIndexGapsWalk, if_neg hne, hstep]
      have hseg : (L.drop (i + 1)).take (j - i) =
          L[i + 1] :: ((L.drop (i + 2)).take (j - (i + 1))) := by
        rw [List.drop_eq_getElem_cons (by omega)]
        have : j - i = (j - (i + 1)) + 1 := by omega
        rw [this, List.take_succ_cons]
      show (if S.contains L[i + 1] = true then [] else [L[i + 1]]) ++
          findIndexGapsWalk next L[j] S f L[i + 1] = _
      rw [hseg, ih (i + 1) (by omega) (by omega) (by omega)]
      rw [List.filter_cons]
      cases hmem : S.contains L[i + 1] with
      | true => simp [hmem]
      | false => simp [hmem]

theorem findIndexGaps_chain (h : chainNext next L = true) (hnd : L.Nodup)
    {S : List γ} {i j : Nat} (hi : i < L.length) (hj : j < L.length)
    (hhead : S.head? = some L[i]) (hlast : S.getLast? = some L[j])
    (hlen : 2 ≤ S.length) (hij : i ≤ j) {fuel : Nat} (hfuel : j - i ≤ fuel) :
    findIndexGaps fuel S next =
      ((L.drop (i + 1)).take (j - i)).filter (fun y => !S.contains y) := by
  rw [findIndexGaps, hhead, hlast]
  show (if S.length ≤ 1 then []
    else findIndexGapsWalk next ((some L[j]).getD L[i]) S fuel L[i]) = _
  rw [if_neg (by omega)]
  exact findIndexGapsWalk_chain h hnd j i hi hj fuel S hij hfuel

end GapLemmas

/-! ## Stable sort lemmas -/

section SortLemmas

variable {γ : Type u}

theorem sortWith_perm (cmp : γ → γ → Int) (l : List γ) : (sortWith cmp l).Perm l :=
  List.perm_insertionSort _ l

theorem mem_sortWith {cmp : γ → γ → Int} {l : List γ} {x : γ} :
    x ∈ sortWith cmp l ↔ x ∈ l :=
  (sortWith_perm cmp l).mem_iff

theorem sortWith_nodup {cmp : γ → γ → Int} {l : List γ} (h : l.Nodup) :
    (sortWith cmp l).Nodup :=
  ((sortWith_perm cmp l).nodup_iff).mpr h

theorem length_sortWith (cmp : γ → γ → Int) (l : List γ) :
    (sortWith cmp l).length = l.length :=
  (sortWith_perm cmp l).length_eq

theorem orderedInsert_pairwise {r : γ → γ → Prop} [DecidableRel r] {x : γ} {s : List γ}
    (hs : s.Pairwise r)
    (htot : ∀ b ∈ s, r x b ∨ r b x)
    (htrans : ∀ a ∈ s, ∀ b ∈ s, r x a → r a b → r x b) :
    (s.orderedInsert r x).Pairwise r := by
  induction s with
  | nil => simp [List.orderedInsert]
  | cons b bs ih =>
    rw [List.orderedInsert]
    rcases List.pairwise_cons.mp hs with ⟨hb, hbs⟩
    by_cases hxb : r x b
    · rw [if_pos hxb]
      refine List.pairwise_cons.mpr ⟨?_, hs⟩
      intro y hy
      rcases List.mem_cons.mp hy with rfl | hy
      · exact hxb
      · exact htrans b (by simp) y (List.mem_cons_of_mem _ hy) hxb (hb y hy)
    · rw [if_neg hxb]
      refine List.pairwise_cons.mpr ⟨?_, ?_⟩
      · intro y hy
        rcases (List.mem_orderedInsert r).mp hy with rfl | hy
        · rcases htot b (by simp) with h | h
          · exact absurd h hxb
          · exact h
        · exact hb y hy
      · exact ih hbs (fun c hc => htot c (List.mem_cons_of_mem _ hc))
          (fun a ha c hc => htrans a (List.mem_cons_of_mem _ ha) c (List.mem_cons_of_mem _ hc))

theorem insertionSort_pairwise {r : γ → γ → Prop} [DecidableRel r] {l : List γ}
    (htot : ∀ a ∈ l, ∀ b ∈ l, r a b ∨ r b a)
    (htrans : ∀ a ∈ l, ∀ b ∈ l, ∀ c ∈ l, r a b → r b c → r a c) :
    (l.insertionSort r).Pairwise r := by
  induction l with
  | nil => simp
  | cons x t ih =>
    rw [List.insertionSort]
    have hmem : ∀ y ∈ t.insertionSort r, y ∈ x :: t := fun y hy =>
      List.mem_cons_of_mem _ ((List.mem_insertionSort r).mp hy)
    refine orderedInsert_pairwise ?_ ?_ ?_
    · exact ih (fun a ha b hb => htot a (List.mem_cons_of_mem _ ha) b (List.mem_cons_of_mem _ hb))
        (fun a ha b hb c hc => htrans a (List.mem_cons_of_mem _ ha) b (List.mem_cons_of_mem _ hb)
          c (List.mem_cons_of_mem _ hc))
    · intro b hb
      exact htot x (by simp) b (hmem b hb)
    · intro a ha b hb
      exact htrans x (by simp) a (hmem a ha) b (hmem b hb)

theorem sortWith_pairwise {cmp : γ → γ → Int} {l : List γ}
    (htot : ∀ a ∈ l, ∀ b ∈ l, cmp a b ≤ 0 ∨ cmp b a ≤ 0)
    (htrans : ∀ a ∈ l, ∀ b ∈ l, ∀ c ∈ l, cmp a b ≤ 0 → cmp b c ≤ 0 → cmp a c ≤ 0) :
    (sortWith cmp l).Pairwise (fun a b => cmp a b ≤ 0) := by
  exact insertionSort_pairwise htot htrans

theorem sortWith_eq_of_pairwise {cmp : γ → γ → Int} {l : List γ}
    (h : l.Pairwise (fun a b => cmp a b ≤ 0)) : sortWith cmp l = l :=
  List.Sorted.insertionSort_eq h

end SortLemmas

/-! ## Immutable `Map` construction lemmas -/

section MapLemmas

variable {κ : Type u} {ν : Type v} [DecidableEq κ]

theorem upsert_keys_nodup {m : List (κ × ν)} {e : κ × ν}
    (h : (m.map Prod.fst).Nodup) : ((upsert m e).map Prod.fst).Nodup := by
  induction m with
  | nil => simp [upsert]
  | cons p t ih =>
    obtain ⟨k, v⟩ := p
    obtain ⟨k', v'⟩ := e
    rw [upsert]
    simp only [List.map_cons, List.nodup_cons] at h
    by_cases hk : k = k'
    · rw [if_pos hk]
      simpa using h
    · rw [if_neg hk]
      simp only [List.map_cons, List.nodup_cons]
      refine ⟨?_, ih h.2⟩
      intro hc
      rcases List.mem_map.mp hc with ⟨q, hq, hqk⟩
      rcases (mem_upsert_aux hq) with rfl | hq'
      · exact hk hqk.symm
      · exact h.1 (List.mem_map.mpr ⟨q, hq', hqk⟩)
where
  mem_upsert_aux {m : List (κ × ν)} {e x : κ × ν} (hx : x ∈ upsert m e) :
      x = e ∨ x ∈ m := by
    induction m with
    | nil => simpa [upsert] using hx
    | cons p t ih =>
      obtain ⟨k, v⟩ := p
      obtain ⟨k', v'⟩ := e
      rw [upsert] at hx
      by_cases hk : k = k'
      · rw [if_pos hk] at hx
        rcases List.mem_cons.mp hx with rfl | hx
        · subst hk; exact Or.inl rfl
        · exact Or.inr (List.mem_cons_of_mem _ hx)
      · rw [if_neg hk] at hx
        rcases List.mem_cons.mp hx with rfl | hx
        · exact Or.inr (by simp)
        · rcases ih hx with h | h
          · exact Or.inl h
          · exact Or.inr (List.mem_cons_of_mem _ h)

theorem mem_upsert {m : List (κ × ν)} {e x : κ × ν} (hx : x ∈ upsert m e) :
    x = e ∨ x ∈ m := upsert_keys_nodup.mem_upsert_aux hx

theorem mem_upsert_iff {m : List (κ × ν)} {k : κ} {v : ν} {x : κ × ν}
    (hnd : (m.map Prod.fst).Nodup) :
    x ∈ upsert m (k, v) ↔ (x = (k, v)) ∨ (x.1 ≠ k ∧ x ∈ m) := by
  induction m with
  | nil => simp [upsert]
  | cons p t ih =>
    obtain ⟨k0, v0⟩ := p
    simp only [List.map_cons, List.nodup_cons] at hnd
    rw [upsert]
    by_cases hk : k0 = k
    · subst hk
      rw [if_pos rfl]
      constructor
      · intro hx
        rcases List.mem_cons.mp hx with rfl | hx
        · exact Or.inl rfl
        · refine Or.inr ⟨?_, List.mem_cons_of_mem _ hx⟩
          intro hc
          exact hnd.1 (List.mem_map.mpr ⟨x, hx, hc⟩)
      · intro hx
        rcases hx with rfl | ⟨hxk, hx⟩
        · exact List.mem_cons_self _ _
        · rcases List.mem_cons.mp hx with rfl | hx
          · exact absurd rfl hxk
          · exact List.mem_cons_of_mem _ hx
    · rw [if_neg hk]
      constructor
      · intro hx
        rcases List.mem_cons.mp hx with rfl | hx
        · exact Or.inr ⟨hk, by simp⟩
        · rcases (ih hnd.2).mp hx with h | ⟨hxk, hx'⟩
          · exact Or.inl h
          · exact Or.inr ⟨hxk, List.mem_cons_of_mem _ hx'⟩
      · intro hx
        rcases hx with rfl | ⟨hxk, hx⟩
        · exact List.mem_cons_of_mem _ ((ih hnd.2).mpr (Or.inl rfl))
        · rcases List.mem_cons.mp hx with rfl | hx'
          · exact List.mem_cons_self _ _
          · exact List.mem_cons_of_mem _ ((ih hnd.2).mpr (Or.inr ⟨hxk, hx'⟩))

theorem mapFromEntries_keys_nodup (entries : List (κ × ν)) :
    ((mapFromEntries entries).map Prod.fst).Nodup := by
  induction entries using List.reverseRecOn with
  | nil => simp [mapFromEntries]
  | append_singleton l e ih =>
    rw [mapFromEntries, List.foldl_append]
    exact upsert_keys_nodup ih

theorem mapFromEntries_spec {entries : List (κ × ν)} {x : κ × ν}
    (hx : x ∈ mapFromEntries entries) :
    ∃ i, ∃ (hi : i < entries.length), entries[i] = x ∧
      ∀ j, (hj : j < entries.length) → i < j → (entries[j]).1 ≠ x.1 := by
  induction entries using List.reverseRecOn with
  | nil => simp [mapFromEntries] at hx
  | append_singleton l e ih =>
    rw [mapFromEntries, List.foldl_append] at hx
    obtain ⟨k', v'⟩ := e
    rcases (mem_upsert_iff (mapFromEntries_keys_nodup l)).mp hx with rfl | ⟨hxk, hx'⟩
    · refine ⟨l.length, by simp, by simp, ?_⟩
      intro j hj hlj
      simp only [List.length_append, List.length_cons, List.length_nil] at hj
      omega
    · obtain ⟨i, hi, hieq, hno⟩ := ih hx'
      refine ⟨i, by simp; omega, ?_, ?_⟩
      · rw [List.getElem_append_left hi]
        exact hieq
      · intro j hj hij
        simp only [List.length_append, List.length_cons, List.length_nil] at hj
        by_cases hjl : j < l.length
        · rw [List.getElem_append_left hjl]
          exact hno j hjl hij
        · have : j = l.length := by omega
          subst this
          rw [List.getElem_append_right (by omega)]
          simpa using fun hc => hxk hc.symm

end MapLemmas

/-! ## Sorter and grid-level lemmas -/

section GridLemmas

variable {α : Type u} {β : Type v} [DecidableEq α] [DecidableEq β]
variable {nav : CoordinateNavigator α β} {cols : List α} {rows : List β}

theorem wellFormedGrid_spec (h : wellFormedGrid nav cols rows = true) :
    chainNext nav.findNextColumnIndex cols = true ∧
    chainPrev nav.findPreviousColumnIndex cols = true ∧
    chainNext nav.findNextRowIndex rows = true ∧
    chainPrev nav.findPreviousRowIndex rows = true ∧
    sorterConsistent nav.columnIndexSorter cols = true ∧
    sorterConsistent nav.rowIndexSorter rows = true ∧
    nav.reference.columnIndex ∈ cols ∧
    nav.reference.rowIndex ∈ rows := by
  simp only [wellFormedGrid, Bool.and_eq_true] at h
  obtain ⟨⟨⟨⟨⟨⟨⟨h1, h2⟩, h3⟩, h4⟩, h5⟩, h6⟩, h7⟩, h8⟩ := h
  exact ⟨h1, h2, h3, h4, h5, h6, by simpa using h7, by simpa using h8⟩

theorem sorter_gt_iff {sorter : γ → γ → Int} {L : List γ} [DecidableEq γ]
    (h : sorterConsistent sorter L = true) {x y : γ} (hx : x ∈ L) (hy : y ∈ L) :
    sorter x y > 0 ↔ L.indexOf y < L.indexOf x := by
  have hxl : L.indexOf x < L.length := List.indexOf_lt_length.mpr hx
  have hyl : L.indexOf y < L.length := List.indexOf_lt_length.mpr hy
  have := sorterConsistent_gt h hxl hyl
  rwa [List.getElem_indexOf hxl, List.getElem_indexOf hyl] at this

theorem sorter_eq_zero_iff {sorter : γ → γ → Int} {L : List γ} [DecidableEq γ]
    (h : sorterConsistent sorter L = true) {x y : γ} (hx : x ∈ L) (hy : y ∈ L) :
    sorter x y = 0 ↔ x = y := by
  have hxl : L.indexOf x < L.length := List.indexOf_lt_length.mpr hx
  have hyl : L.indexOf y < L.length := List.indexOf_lt_length.mpr hy
  have h0 := sorterConsistent_eq_zero h hxl hyl
  rw [List.getElem_indexOf hxl, List.getElem_indexOf hyl] at h0
  rw [h0]
  exact List.indexOf_inj hx hy

theorem sorter_le_iff {sorter : γ → γ → Int} {L : List γ} [DecidableEq γ]
    (h : sorterConsistent sorter L = true) {x y : γ} (hx : x ∈ L) (hy : y ∈ L) :
    sorter x y ≤ 0 ↔ L.indexOf x ≤ L.indexOf y := by
  have := sorter_gt_iff h hx hy
  omega

/-- On-grid characterisation of the row-major coordinate sorter's sign. -/
theorem coordSorter_gt_iff
    (hc : sorterConsistent nav.columnIndexSorter cols = true)
    (hr : sorterConsistent nav.rowIndexSorter rows = true)
    {a b : Coordinate α β} (ha1 : a.columnIndex ∈ cols) (ha2 : a.rowIndex ∈ rows)
    (hb1 : b.columnIndex ∈ cols) (hb2 : b.rowIndex ∈ rows) :
    nav.createCoordinatesSorter a b > 0 ↔
      (rows.indexOf b.rowIndex < rows.indexOf a.rowIndex ∨
        (rows.indexOf a.rowIndex = rows.indexOf b.rowIndex ∧
          cols.indexOf b.columnIndex < cols.indexOf a.columnIndex)) := by
  rw [CoordinateNavigator.createCoordinatesSorter]
  by_cases h0 : nav.rowIndexSorter a.rowIndex b.rowIndex = 0
  · have hrow : a.rowIndex = b.rowIndex := (sorter_eq_zero_iff hr ha2 hb2).mp h0
    simp only [h0, ne_eq, not_true_eq_false, if_false]
    rw [sorter_gt_iff hc ha1 hb1, hrow]
    omega
  · simp only [ne_eq, h0, not_false_eq_true, if_true]
    rw [sorter_gt_iff hr ha2 hb2]
    have hne : rows.indexOf a.rowIndex ≠ rows.indexOf b.rowIndex := by
      intro hc'
      exact h0 ((sorter_eq_zero_iff hr ha2 hb2).mpr ((List.indexOf_inj ha2 hb2).mp hc'))
    omega

/-- On-grid: the coordinate sorter is zero exactly on equal coordinates. -/
theorem coordSorter_eq_zero_iff
    (hc : sorterConsistent nav.columnIndexSorter cols = true)
    (hr : sorterConsistent nav.rowIndexSorter rows = true)
    {a b : Coordinate α β} (ha1 : a.columnIndex ∈ cols) (ha2 : a.rowIndex ∈ rows)
    (hb1 : b.columnIndex ∈ cols) (hb2 : b.rowIndex ∈ rows) :
    nav.createCoordinatesSorter a b = 0 ↔ a = b := by
  rw [CoordinateNavigator.createCoordinatesSorter]
  by_cases h0 : nav.rowIndexSorter a.rowIndex b.rowIndex = 0
  · have hrow : a.rowIndex = b.rowIndex := (sorter_eq_zero_iff hr ha2 hb2).mp h0
    simp only [h0, ne_eq, not_true_eq_false, if_false]
    rw [sorter_eq_zero_iff hc ha1 hb1]
    constructor
    · intro hcol
      cases a; cases b
      simp_all
    · rintro rfl
      rfl
  · simp only [ne_eq, h0, not_false_eq_true, if_true]
    constructor
    · intro hz
      exact hz.elim
    · rintro rfl
      exact absurd ((sorter_eq_zero_iff hr ha2 ha2).mpr rfl) h0

/-- On-grid: exactly one argument order of two distinct coordinates demands the
`calculateDistance` swap. -/
theorem coordSorter_antisymm
    (hc : sorterConsistent nav.columnIndexSorter cols = true)
    (hr : sorterConsistent nav.rowIndexSorter rows = true)
    {a b : Coordinate α β} (ha1 : a.columnIndex ∈ cols) (ha2 : a.rowIndex ∈ rows)
    (hb1 : b.columnIndex ∈ cols) (hb2 : b.rowIndex ∈ rows) (hne : a ≠ b)
    (hle : ¬nav.createCoordinatesSorter a b > 0) :
    nav.createCoordinatesSorter b a > 0 := by
  rw [coordSorter_gt_iff hc hr ha1 ha2 hb1 hb2] at hle
  rw [coordSorter_gt_iff hc hr hb1 hb2 ha1 ha2]
  have hrow : rows.indexOf a.rowIndex = rows.indexOf b.rowIndex → a.rowIndex = b.rowIndex :=
    fun h => (List.indexOf_inj ha2 hb2).mp h
  have hcol : cols.indexOf a.columnIndex = cols.indexOf b.columnIndex →
      a.columnIndex = b.columnIndex :=
    fun h => (List.indexOf_inj ha1 hb1).mp h
  by_cases heq : rows.indexOf a.rowIndex = rows.indexOf b.rowIndex
  · right
    refine ⟨heq.symm, ?_⟩
    have : cols.indexOf a.columnIndex ≠ cols.indexOf b.columnIndex := by
      intro hc'
      exact hne (by cases a; cases b; simp_all [hrow heq, hcol hc'])
    omega
  · left
    omega

end GridLemmas

/-! ## `calculateDistance` evaluation lemmas -/

section DistanceLemmas

variable {α : Type u} {β : Type v} [DecidableEq α] [DecidableEq β]
variable {nav : CoordinateNavigator α β} {cols : List α} {rows : List β}

theorem coordSorter_asymm
    (hc : sorterConsistent nav.columnIndexSorter cols = true)
    (hr : sorterConsistent nav.rowIndexSorter rows = true)
    {a b : Coordinate α β} (ha1 : a.columnIndex ∈ cols) (ha2 : a.rowIndex ∈ rows)
    (hb1 : b.columnIndex ∈ cols) (hb2 : b.rowIndex ∈ rows)
    (hgt : nav.createCoordinatesSorter a b > 0) :
    ¬nav.createCoordinatesSorter b a > 0 := by
  rw [coordSorter_gt_iff hc hr ha1 ha2 hb1 hb2] at hgt
  rw [coordSorter_gt_iff hc hr hb1 hb2 ha1 ha2]
  omega

theorem calculateDistance_eval_col_shared
    (hnr : chainNext nav.findNextRowIndex rows = true)
    (hc : sorterConsistent nav.columnIndexSorter cols = true)
    (hr : sorterConsistent nav.rowIndexSorter rows = true)
    {x y : Coordinate α β} (hx1 : x.columnIndex ∈ cols) (hx2 : x.rowIndex ∈ rows)
    (hy1 : y.columnIndex ∈ cols) (hy2 : y.rowIndex ∈ rows)
    (hcol : x.columnIndex = y.columnIndex)
    (hle : rows.indexOf x.rowIndex ≤ rows.indexOf y.rowIndex)
    {fuel : Nat} (hfuel : rows.length + 1 ≤ fuel) :
    nav.calculateDistance fuel x y =
      some (.right (rows.indexOf y.rowIndex - rows.indexOf x.rowIndex)) := by
  obtain ⟨f, rfl⟩ : ∃ f, fuel = f + 1 := ⟨fuel - 1, by omega⟩
  have hnoswap : ¬nav.createCoordinatesSorter x y > 0 := by
    rw [coordSorter_gt_iff hc hr hx1 hx2 hy1 hy2]
    rintro (h | ⟨h1, h2⟩)
    · omega
    · rw [hcol] at h2
      omega
  rw [CoordinateNavigator.calculateDistance, if_neg hnoswap, if_pos hcol]
  have hw := calculateDistanceBetweenIndices_chain hnr (sorterConsistent_nodup hr)
    (rows.indexOf y.rowIndex) (rows.indexOf x.rowIndex)
    (List.indexOf_lt_length.mpr hx2) (List.indexOf_lt_length.mpr hy2) f hle
    (by have := List.indexOf_lt_length.mpr hy2; omega)
  rw [List.getElem_indexOf (List.indexOf_lt_length.mpr hx2),
    List.getElem_indexOf (List.indexOf_lt_length.mpr hy2)] at hw
  rw [hw]

theorem calculateDistance_eval_row_shared
    (hnc : chainNext nav.findNextColumnIndex cols = true)
    (hc : sorterConsistent nav.columnIndexSorter cols = true)
    (hr : sorterConsistent nav.rowIndexSorter rows = true)
    {x y : Coordinate α β} (hx1 : x.columnIndex ∈ cols) (hx2 : x.rowIndex ∈ rows)
    (hy1 : y.columnIndex ∈ cols) (hy2 : y.rowIndex ∈ rows)
    (hcolne : x.columnIndex ≠ y.columnIndex) (hrow : x.rowIndex = y.rowIndex)
    (hle : cols.indexOf x.columnIndex ≤ cols.indexOf y.columnIndex)
    {fuel : Nat} (hfuel : cols.length + 1 ≤ fuel) :
    nav.calculateDistance fuel x y =
      some (.right (cols.indexOf y.columnIndex - cols.indexOf x.columnIndex)) := by
  obtain ⟨f, rfl⟩ : ∃ f, fuel = f + 1 := ⟨fuel - 1, by omega⟩
  have hnoswap : ¬nav.createCoordinatesSorter x y > 0 := by
    rw [coordSorter_gt_iff hc hr hx1 hx2 hy1 hy2]
    rintro (h | ⟨h1, h2⟩)
    · rw [hrow] at h
      omega
    · omega
  rw [CoordinateNavigator.calculateDistance, if_neg hnoswap, if_neg hcolne, if_pos hrow]
  have hw := calculateDistanceBetweenIndices_chain hnc (sorterConsistent_nodup hc)
    (cols.indexOf y.columnIndex) (cols.indexOf x.columnIndex)
    (List.indexOf_lt_length.mpr hx1) (List.indexOf_lt_length.mpr hy1) f hle
    (by have := List.indexOf_lt_length.mpr hy1; omega)
  rw [List.getElem_indexOf (List.indexOf_lt_length.mpr hx1),
    List.getElem_indexOf (List.indexOf_lt_length.mpr hy1)] at hw
  rw [hw]

/-- Aligned coordinates on a well-formed grid: both argument orders succeed
with a common distance value. -/
theorem calculateDistance_aligned_symm
    (h : wellFormedGrid nav cols rows = true)
    {a b : Coordinate α β} (ha1 : a.columnIndex ∈ cols) (ha2 : a.rowIndex ∈ rows)
    (hb1 : b.columnIndex ∈ cols) (hb2 : b.rowIndex ∈ rows)
    (hal : a.columnIndex = b.columnIndex ∨ a.rowIndex = b.rowIndex)
    {fuel : Nat} (hfuel : cols.length + rows.length + 2 ≤ fuel) :
    ∃ d, nav.calculateDistance fuel a b = some (.right d) ∧
      nav.calculateDistance fuel b a = some (.right d) := by
  obtain ⟨hnc, hpc, hnr, hpr, hc, hr, href1, href2⟩ := wellFormedGrid_spec h
  rcases hal with hcol | hrow
  · -- shared column: walk along the rows
    rcases Nat.le_total (rows.indexOf a.rowIndex) (rows.indexOf b.rowIndex) with hle | hle
    · refine ⟨rows.indexOf b.rowIndex - rows.indexOf a.rowIndex, ?_, ?_⟩
      · exact calculateDistance_eval_col_shared hnr hc hr ha1 ha2 hb1 hb2 hcol hle
          (by omega)
      · by_cases heq : b = a
        · subst heq
          exact calculateDistance_eval_col_shared hnr hc hr ha1 ha2 ha1 ha2 rfl le_rfl
            (by omega)
        · have hgt : nav.createCoordinatesSorter b a > 0 := by
            apply coordSorter_antisymm hc hr ha1 ha2 hb1 hb2 (fun hh => heq hh.symm)
            rw [coordSorter_gt_iff hc hr ha1 ha2 hb1 hb2]
            rintro (hgt' | ⟨h1, h2⟩)
            · omega
            · rw [hcol] at h2
              omega
          obtain ⟨f, rfl⟩ : ∃ f, fuel = f + 1 := ⟨fuel - 1, by omega⟩
          rw [CoordinateNavigator.calculateDistance, if_pos hgt]
          exact calculateDistance_eval_col_shared hnr hc hr ha1 ha2 hb1 hb2 hcol hle
            (by omega)
    · refine ⟨rows.indexOf a.rowIndex - rows.indexOf b.rowIndex, ?_, ?_⟩
      · by_cases heq : a = b
        · subst heq
          have : rows.indexOf a.rowIndex - rows.indexOf a.rowIndex = 0 := by omega
          rw [this]
          have h0 := calculateDistance_eval_col_shared hnr hc hr ha1 ha2 ha1 ha2 rfl le_rfl
            (show rows.length + 1 ≤ fuel by omega)
          simpa using h0
        · have hgt : nav.createCoordinatesSorter a b > 0 := by
            apply coordSorter_antisymm hc hr hb1 hb2 ha1 ha2 (fun hh => heq hh.symm)
            rw [coordSorter_gt_iff hc hr hb1 hb2 ha1 ha2]
            rintro (hgt' | ⟨h1, h2⟩)
            · omega
            · rw [hcol] at h2
              omega
          obtain ⟨f, rfl⟩ : ∃ f, fuel = f + 1 := ⟨fuel - 1, by omega⟩
          rw [CoordinateNavigator.calculateDistance, if_pos hgt]
          exact calculateDistance_eval_col_shared hnr hc hr hb1 hb2 ha1 ha2 hcol.symm hle
            (by omega)
      · exact calculateDistance_eval_col_shared hnr hc hr hb1 hb2 ha1 ha2 hcol.symm hle
          (by omega)
  · -- shared row
    by_cases hcoleq : a.columnIndex = b.columnIndex
    · have heq : a = b := by cases a; cases b; simp_all
      subst heq
      refine ⟨0, ?_, ?_⟩ <;>
        · have h0 := calculateDistance_eval_col_shared hnr hc hr ha1 ha2 ha1 ha2 rfl le_rfl
            (show rows.length + 1 ≤ fuel by omega)
          simpa using h0
    · rcases Nat.le_total (cols.indexOf a.columnIndex) (cols.indexOf b.columnIndex) with
        hle | hle
      · refine ⟨cols.indexOf b.columnIndex - cols.indexOf a.columnIndex, ?_, ?_⟩
        · exact calculateDistance_eval_row_shared hnc hc hr ha1 ha2 hb1 hb2 hcoleq hrow hle
            (by omega)
        · have hgt : nav.createCoordinatesSorter b a > 0 := by
            apply coordSorter_antisymm hc hr ha1 ha2 hb1 hb2
              (fun hh => hcoleq (by rw [hh]))
            rw [coordSorter_gt_iff hc hr ha1 ha2 hb1 hb2]
            rintro (hgt' | ⟨h1, h2⟩)
            · rw [hrow] at hgt'
              omega
            · omega
          obtain ⟨f, rfl⟩ : ∃ f, fuel = f + 1 := ⟨fuel - 1, by omega⟩
          rw [CoordinateNavigator.calculateDistance, if_pos hgt]
          exact calculateDistance_eval_row_shared hnc hc hr ha1 ha2 hb1 hb2 hcoleq hrow hle
            (by omega)
      · refine ⟨cols.indexOf a.columnIndex - cols.indexOf b.columnIndex, ?_, ?_⟩
        · have hgt : nav.createCoordinatesSorter a b > 0 := by
            apply coordSorter_antisymm hc hr hb1 hb2 ha1 ha2
              (fun hh => hcoleq (by rw [hh]))
            rw [coordSorter_gt_iff hc hr hb1 hb2 ha1 ha2]
            rintro (hgt' | ⟨h1, h2⟩)
            · rw [hrow] at hgt'
              omega
            · omega
          obtain ⟨f, rfl⟩ : ∃ f, fuel = f + 1 := ⟨fuel - 1, by omega⟩
          rw [CoordinateNavigator.calculateDistance, if_pos hgt]
          exact calculateDistance_eval_row_shared hnc hc hr hb1 hb2 ha1 ha2
            (fun hh => hcoleq hh.symm) hrow.symm hle (by omega)
        · exact calculateDistance_eval_row_shared hnc hc hr hb1 hb2 ha1 ha2
            (fun hh => hcoleq hh.symm) hrow.symm hle (by omega)

end DistanceLemmas

section DistanceClaims

variable {α : Type u} {β : Type v} [DecidableEq α] [DecidableEq β]
variable {nav : CoordinateNavigator α β} {cols : List α} {rows : List β}

theorem calculateDistance_eval_misaligned {x y : Coordinate α β}
    (hnoswap : ¬nav.createCoordinatesSorter x y > 0)
    (hcol : x.columnIndex ≠ y.columnIndex) (hrow : x.rowIndex ≠ y.rowIndex)
    {fuel : Nat} (hfuel : 1 ≤ fuel) :
    nav.calculateDistance fuel x y = some (.left ⟨x, y⟩) := by
  obtain ⟨f, rfl⟩ : ∃ f, fuel = f + 1 := ⟨fuel - 1, by omega⟩
  rw [CoordinateNavigator.calculateDistance, if_neg hnoswap, if_neg hcol, if_neg hrow]

/-- C2: for coordinates `a`, `b` on a well-formed grid that share a column or
share a row, `calculateDistance(a,b)` succeeds with the same value as
`calculateDistance(b,a)`; and for every grid coordinate `a`,
`calculateDistance(a,a)` succeeds with value `0`. -/
theorem calculateDistance_symm_and_self_zero
    (h : wellFormedGrid nav cols rows = true)
    {fuel : Nat} (hfuel : cols.length + rows.length + 2 ≤ fuel) :
    (∀ a b : Coordinate α β, a.columnIndex ∈ cols → a.rowIndex ∈ rows →
      b.columnIndex ∈ cols → b.rowIndex ∈ rows →
      (a.columnIndex = b.columnIndex ∨ a.rowIndex = b.rowIndex) →
      ∃ d, nav.calculateDistance fuel a b = some (.right d) ∧
        nav.calculateDistance fuel b a = some (.right d)) ∧
    (∀ a : Coordinate α β, a.columnIndex ∈ cols → a.rowIndex ∈ rows →
      nav.calculateDistance fuel a a = some (.right 0)) := by
  obtain ⟨hnc, hpc, hnr, hpr, hc, hr, _, _⟩ := wellFormedGrid_spec h
  refine ⟨?_, ?_⟩
  · intro a b ha1 ha2 hb1 hb2 hal
    exact calculateDistance_aligned_symm h ha1 ha2 hb1 hb2 hal hfuel
  · intro a ha1 ha2
    have h0 := calculateDistance_eval_col_shared hnr hc hr ha1 ha2 ha1 ha2 rfl le_rfl
      (show rows.length + 1 ≤ fuel by omega)
    simpa using h0

/-- Witness for C2 on the example grid: A1/A4 share a column, distance 3 both
ways; C3/C3 give distance 0. -/
theorem calculateDistance_symm_and_self_zero_witness :
    (∃ d, nav5.calculateDistance 12 ⟨0, 1⟩ ⟨0, 4⟩ = some (.right d) ∧
      nav5.calculateDistance 12 ⟨0, 4⟩ ⟨0, 1⟩ = some (.right d)) ∧
    nav5.calculateDistance 12 ⟨2, 3⟩ ⟨2, 3⟩ = some (.right 0) :=
  ⟨(@calculateDistance_symm_and_self_zero Nat Nat _ _ nav5 cols5 rows5
        (by decide) 12 (by decide)).1
      ⟨0, 1⟩ ⟨0, 4⟩ (by decide) (by decide) (by decide) (by decide) (Or.inl rfl),
    (@calculateDistance_symm_and_self_zero Nat Nat _ _ nav5 cols5 rows5
        (by decide) 12 (by decide)).2
      ⟨2, 3⟩ (by decide) (by decide)⟩

/-- C3: for coordinates on a well-formed grid sharing neither a column index
nor a row index, `calculateDistance` yields the typed `NonAlignedCoordinates`
failure on the `left` arm of the result — the same failure value for both
argument orders — rather than diverging or escaping. -/
theorem calculateDistance_misaligned_left
    (h : wellFormedGrid nav cols rows = true)
    {a b : Coordinate α β} (ha1 : a.columnIndex ∈ cols) (ha2 : a.rowIndex ∈ rows)
    (hb1 : b.columnIndex ∈ cols) (hb2 : b.rowIndex ∈ rows)
    (hcolne : a.columnIndex ≠ b.columnIndex) (hrowne : a.rowIndex ≠ b.rowIndex)
    {fuel : Nat} (hfuel : 2 ≤ fuel) :
    ∃ e : NonAlignedCoordinates α β,
      nav.calculateDistance fuel a b = some (.left e) ∧
      nav.calculateDistance fuel b a = some (.left e) := by
  obtain ⟨hnc, hpc, hnr, hpr, hc, hr, _, _⟩ := wellFormedGrid_spec h
  have hne : a ≠ b := fun hh => hcolne (by rw [hh])
  by_cases hgt : nav.createCoordinatesSorter a b > 0
  · refine ⟨⟨b, a⟩, ?_, ?_⟩
    · obtain ⟨f, rfl⟩ : ∃ f, fuel = f + 1 := ⟨fuel - 1, by omega⟩
      rw [CoordinateNavigator.calculateDistance, if_pos hgt]
      exact calculateDistance_eval_misaligned
        (coordSorter_asymm hc hr ha1 ha2 hb1 hb2 hgt)
        (fun hh => hcolne hh.symm) (fun hh => hrowne hh.symm) (by omega)
    · exact calculateDistance_eval_misaligned
        (coordSorter_asymm hc hr ha1 ha2 hb1 hb2 hgt)
        (fun hh => hcolne hh.symm) (fun hh => hrowne hh.symm) (by omega)
  · refine ⟨⟨a, b⟩, ?_, ?_⟩
    · exact calculateDistance_eval_misaligned hgt hcolne hrowne (by omega)
    · have hgt' : nav.createCoordinatesSorter b a > 0 :=
        coordSorter_antisymm hc hr ha1 ha2 hb1 hb2 hne hgt
      obtain ⟨f, rfl⟩ : ∃ f, fuel = f + 1 := ⟨fuel - 1, by omega⟩
      rw [CoordinateNavigator.calculateDistance, if_pos hgt']
      exact calculateDistance_eval_misaligned hgt hcolne hrowne (by omega)

/-- Witness for C3 on the example grid: A1 and B2 are not aligned. -/
theorem calculateDistance_misaligned_left_witness :
    ∃ e : NonAlignedCoordinates Nat Nat,
      nav5.calculateDistance 12 ⟨0, 1⟩ ⟨1, 2⟩ = some (.left e) ∧
      nav5.calculateDistance 12 ⟨1, 2⟩ ⟨0, 1⟩ = some (.left e) :=
  @calculateDistance_misaligned_left Nat Nat _ _ nav5 cols5 rows5 (by decide)
    ⟨0, 1⟩ ⟨1, 2⟩ (by decide) (by decide) (by decide) (by decide) (by decide) (by decide)
    12 (by decide)

end DistanceClaims

section FilterClaim

variable {α : Type u} {β : Type v} [DecidableEq α] [DecidableEq β]

/-- C5: inside `findAlignments`, a candidate is retained by
`filterInvalidAlignmentCandidate` exactly when its alignment direction is
defined and its computed distance to the reference is an integer (not the
`NaN` of a failed `calculateDistance`) that satisfies `distance ≤ maxDistance`;
in particular a distance exactly equal to `maxDistance` is kept, and a
non-integral or larger distance is discarded. -/
theorem filterInvalidAlignmentCandidate_retention_iff
    (nav : CoordinateNavigator α β) (fuel maxDistance : Nat)
    (candidate reference : Coordinate α β) :
    CoordinateNavigator.filterInvalidAlignmentCandidate maxDistance
        (nav.mapCandidateToPotentialAlignment fuel candidate reference) = true ↔
      ((findCoordinatesAlignmentDirection candidate reference).isSome ∧
        ∃ d, nav.calculateDistance fuel candidate reference = some (.right d) ∧
          d ≤ maxDistance) := by
  rcases hcd : nav.calculateDistance fuel candidate reference with _ | e
  · simp [CoordinateNavigator.filterInvalidAlignmentCandidate,
      CoordinateNavigator.mapCandidateToPotentialAlignment, jsIsInteger, jsLeNat, hcd]
  · rcases e with e | d
    · simp [CoordinateNavigator.filterInvalidAlignmentCandidate,
        CoordinateNavigator.mapCandidateToPotentialAlignment, jsIsInteger, jsLeNat, hcd]
    · simp [CoordinateNavigator.filterInvalidAlignmentCandidate,
        CoordinateNavigator.mapCandidateToPotentialAlignment, jsIsInteger, jsLeNat, hcd,
      Bool.and_eq_true, decide_eq_true_eq]

end FilterClaim

section SurroundingExampleClaim

/-- C9 (counterexample): on the example grid the claimed output order
`[B3, D3, C2, C4]` is wrong — that is the unsorted construction order, not the
row-major sorted order the method returns. -/
theorem getSurroundingCoordinates_example_cex :
    nav5.getSurroundingCoordinates ⟨2, 3⟩ ≠
      [⟨1, 3⟩, ⟨3, 3⟩, ⟨2, 2⟩, ⟨2, 4⟩] := by
  decide

/-- C9 (amended): on the example grid (columns A–E as 0–4, rows 1–5),
`getSurroundingCoordinates(C3)` returns exactly `[C2, B3, D3, C4]`, the
row-major sorted order (rows compared first, then columns). -/
theorem getSurroundingCoordinates_example :
    nav5.getSurroundingCoordinates ⟨2, 3⟩ =
      [⟨2, 2⟩, ⟨1, 3⟩, ⟨3, 3⟩, ⟨2, 4⟩] := by
  decide

end SurroundingExampleClaim

section SurroundingClaim

variable {α : Type u} {β : Type v} [DecidableEq α] [DecidableEq β]
variable {nav : CoordinateNavigator α β} {cols : List α} {rows : List β}

theorem chainPrev_eval {γ : Type u} [DecidableEq γ] {prev : γ → Option γ} {L : List γ}
    (h : chainPrev prev L = true) {x : γ} (hx : x ∈ L) :
    (L.indexOf x = 0 ∧ prev x = none) ∨
      (∃ j, ∃ hj : j + 1 < L.length, L.indexOf x = j + 1 ∧ prev x = some L[j]) := by
  have hxl : L.indexOf x < L.length := List.indexOf_lt_length.mpr hx
  have hq : L[L.indexOf x]? = some x := by
    rw [List.getElem?_eq_getElem hxl, List.getElem_indexOf hxl]
  rcases hcase : L.indexOf x with _ | j
  · left
    refine ⟨rfl, ?_⟩
    rw [hcase] at hq
    obtain ⟨h0l, hx'⟩ := List.getElem?_eq_some.mp hq
    have hne : L ≠ [] := by
      intro hc
      rw [hc] at hxl
      simp at hxl
    have h0 := chainPrev_head h hne
    rw [List.head_eq_getElem] at h0
    rwa [hx'] at h0
  · right
    have hj : j + 1 < L.length := by omega
    refine ⟨j, hj, rfl, ?_⟩
    rw [hcase] at hq
    obtain ⟨hjl, hx'⟩ := List.getElem?_eq_some.mp hq
    have := chainPrev_getElem_succ h hj
    rwa [hx'] at this

theorem chainNext_eval {γ : Type u} [DecidableEq γ] {next : γ → Option γ} {L : List γ}
    (h : chainNext next L = true) {x : γ} (hx : x ∈ L) :
    (L.indexOf x + 1 = L.length ∧ next x = none) ∨
      (∃ hj : L.indexOf x + 1 < L.length, next x = some (L[L.indexOf x + 1])) := by
  have hxl : L.indexOf x < L.length := List.indexOf_lt_length.mpr hx
  have hgx : L[L.indexOf x] = x := List.getElem_indexOf hxl
  by_cases hend : L.indexOf x + 1 < L.length
  · right
    refine ⟨hend, ?_⟩
    have := chainNext_getElem_succ h hend
    rwa [hgx] at this
  · left
    have hlast : L.indexOf x + 1 = L.length := by omega
    have := chainNext_last h hxl hlast
    rw [hgx] at this
    exact ⟨hlast, this⟩

/-- C8: on a well-formed grid, `getSurroundingCoordinates(target)` returns at
most 4 coordinates, all structurally distinct, each one adjacency step from
the target on exactly one axis (the other axis value unchanged), and it
returns fewer than 4 exactly when some adjacency lookup on the target returns
`none` (a grid boundary). -/
theorem getSurroundingCoordinates_spec
    (h : wellFormedGrid nav cols rows = true)
    (target : Coordinate α β)
    (h1 : target.columnIndex ∈ cols) (h2 : target.rowIndex ∈ rows) :
    (nav.getSurroundingCoordinates target).length ≤ 4 ∧
    (nav.getSurroundingCoordinates target).Nodup ∧
    (∀ x ∈ nav.getSurroundingCoordinates target,
      (x.rowIndex = target.rowIndex ∧ x.columnIndex ≠ target.columnIndex ∧
        (nav.findPreviousColumnIndex target.columnIndex = some x.columnIndex ∨
          nav.findNextColumnIndex target.columnIndex = some x.columnIndex)) ∨
      (x.columnIndex = target.columnIndex ∧ x.rowIndex ≠ target.rowIndex ∧
        (nav.findPreviousRowIndex target.rowIndex = some x.rowIndex ∨
          nav.findNextRowIndex target.rowIndex = some x.rowIndex))) ∧
    ((nav.getSurroundingCoordinates target).length < 4 ↔
      (nav.findPreviousColumnIndex target.columnIndex = none ∨
        nav.findNextColumnIndex target.columnIndex = none ∨
        nav.findPreviousRowIndex target.rowIndex = none ∨
        nav.findNextRowIndex target.rowIndex = none)) := by
  obtain ⟨hnc, hpc, hnr, hpr, hc, hr, _, _⟩ := wellFormedGrid_spec h
  have hndc : cols.Nodup := sorterConsistent_nodup hc
  have hndr : rows.Nodup := sorterConsistent_nodup hr
  -- facts about each adjacency lookup
  have hpcv : ∀ v, nav.findPreviousColumnIndex target.columnIndex = some v →
      v ∈ cols ∧ v ≠ target.columnIndex := by
    intro v hv
    rcases chainPrev_eval hpc h1 with ⟨_, hnone⟩ | ⟨j, hj, hidx, hsome⟩
    · rw [hnone] at hv
      exact absurd hv (by simp)
    · rw [hsome] at hv
      obtain rfl : cols[j] = v := by injection hv
      refine ⟨List.getElem_mem _, ?_⟩
      intro hcontra
      have : cols[j] = cols[cols.indexOf target.columnIndex] := by
        rw [List.getElem_indexOf (List.indexOf_lt_length.mpr h1)]
        exact hcontra
      have := (hndc.getElem_inj_iff).mp this
      omega
  have hncv : ∀ v, nav.findNextColumnIndex target.columnIndex = some v →
      v ∈ cols ∧ v ≠ target.columnIndex := by
    intro v hv
    rcases chainNext_eval hnc h1 with ⟨_, hnone⟩ | ⟨hj, hsome⟩
    · rw [hnone] at hv
      exact absurd hv (by simp)
    · rw [hsome] at hv
      obtain rfl : cols[cols.indexOf target.columnIndex + 1] = v := by injection hv
      refine ⟨List.getElem_mem _, ?_⟩
      intro hcontra
      have : cols[cols.indexOf target.columnIndex + 1] =
          cols[cols.indexOf target.columnIndex] := by
        rw [List.getElem_indexOf (List.indexOf_lt_length.mpr h1)]
        exact hcontra
      have := (hndc.getElem_inj_iff).mp this
      omega
  have hprv : ∀ v, nav.findPreviousRowIndex target.rowIndex = some v →
      v ∈ rows ∧ v ≠ target.rowIndex := by
    intro v hv
    rcases chainPrev_eval hpr h2 with ⟨_, hnone⟩ | ⟨j, hj, hidx, hsome⟩
    · rw [hnone] at hv
      exact absurd hv (by simp)
    · rw [hsome] at hv
      obtain rfl : rows[j] = v := by injection hv
      refine ⟨List.getElem_mem _, ?_⟩
      intro hcontra
      have : rows[j] = rows[rows.indexOf target.rowIndex] := by
        rw [List.getElem_indexOf (List.indexOf_lt_length.mpr h2)]
        exact hcontra
      have := (hndr.getElem_inj_iff).mp this
      omega
  have hnrv : ∀ v, nav.findNextRowIndex target.rowIndex = some v →
      v ∈ rows ∧ v ≠ target.rowIndex := by
    intro v hv
    rcases chainNext_eval hnr h2 with ⟨_, hnone⟩ | ⟨hj, hsome⟩
    · rw [hnone] at hv
      exact absurd hv (by simp)
    · rw [hsome] at hv
      obtain rfl : rows[rows.indexOf target.rowIndex + 1] = v := by injection hv
      refine ⟨List.getElem_mem _, ?_⟩
      intro hcontra
      have : rows[rows.indexOf target.rowIndex + 1] =
          rows[rows.indexOf target.rowIndex] := by
        rw [List.getElem_indexOf (List.indexOf_lt_length.mpr h2)]
        exact hcontra
      have := (hndr.getElem_inj_iff).mp this
      omega
  have hpcnc : ∀ u v, nav.findPreviousColumnIndex target.columnIndex = some u →
      nav.findNextColumnIndex target.columnIndex = some v → u ≠ v := by
    intro u v hu hv
    rcases chainPrev_eval hpc h1 with ⟨_, hnone⟩ | ⟨j, hj, hidx, hsome⟩
    · rw [hnone] at hu
      exact absurd hu (by simp)
    rcases chainNext_eval hnc h1 with ⟨_, hnone'⟩ | ⟨hj', hsome'⟩
    · rw [hnone'] at hv
      exact absurd hv (by simp)
    rw [hsome] at hu
    rw [hsome'] at hv
    obtain rfl : cols[j] = u := by injection hu
    obtain rfl : cols[cols.indexOf target.columnIndex + 1] = v := by injection hv
    intro hcontra
    have := (hndc.getElem_inj_iff).mp hcontra
    omega
  have hprnr : ∀ u v, nav.findPreviousRowIndex target.rowIndex = some u →
      nav.findNextRowIndex target.rowIndex = some v → u ≠ v := by
    intro u v hu hv
    rcases chainPrev_eval hpr h2 with ⟨_, hnone⟩ | ⟨j, hj, hidx, hsome⟩
    · rw [hnone] at hu
      exact absurd hu (by simp)
    rcases chainNext_eval hnr h2 with ⟨_, hnone'⟩ | ⟨hj', hsome'⟩
    · rw [hnone'] at hv
      exact absurd hv (by simp)
    rw [hsome] at hu
    rw [hsome'] at hv
    obtain rfl : rows[j] = u := by injection hu
    obtain rfl : rows[rows.indexOf target.rowIndex + 1] = v := by injection hv
    intro hcontra
    have := (hndr.getElem_inj_iff).mp hcontra
    omega
  have hPmem : ∀ v ∈ [nav.findPreviousColumnIndex target.columnIndex,
      nav.findNextColumnIndex target.columnIndex].filterMap id,
      nav.findPreviousColumnIndex target.columnIndex = some v ∨
        nav.findNextColumnIndex target.columnIndex = some v := by
    intro v hv
    simpa [eq_comm] using hv
  have hQmem : ∀ v ∈ [nav.findPreviousRowIndex target.rowIndex,
      nav.findNextRowIndex target.rowIndex].filterMap id,
      nav.findPreviousRowIndex target.rowIndex = some v ∨
        nav.findNextRowIndex target.rowIndex = some v := by
    intro v hv
    simpa [eq_comm] using hv
  have hPnodup : ([nav.findPreviousColumnIndex target.columnIndex,
      nav.findNextColumnIndex target.columnIndex].filterMap id).Nodup := by
    rcases hA : nav.findPreviousColumnIndex target.columnIndex with _ | pcv <;>
      rcases hB : nav.findNextColumnIndex target.columnIndex with _ | ncv <;>
        simp [List.filterMap]
    exact hpcnc pcv ncv hA hB
  have hQnodup : ([nav.findPreviousRowIndex target.rowIndex,
      nav.findNextRowIndex target.rowIndex].filterMap id).Nodup := by
    rcases hC : nav.findPreviousRowIndex target.rowIndex with _ | prv <;>
      rcases hD : nav.findNextRowIndex target.rowIndex with _ | nrv <;>
        simp [List.filterMap]
    exact hprnr prv nrv hC hD
  refine ⟨?_, ?_, ?_, ?_⟩
  · rw [CoordinateNavigator.getSurroundingCoordinates, length_sortWith]
    rcases nav.findPreviousColumnIndex target.columnIndex with _ | pcv <;>
      rcases nav.findNextColumnIndex target.columnIndex with _ | ncv <;>
        rcases nav.findPreviousRowIndex target.rowIndex with _ | prv <;>
          rcases nav.findNextRowIndex target.rowIndex with _ | nrv <;>
            simp [List.filterMap]
  · rw [CoordinateNavigator.getSurroundingCoordinates]
    apply sortWith_nodup
    rw [List.nodup_append]
    refine ⟨?_, ?_, ?_⟩
    · apply List.Nodup.map_on ?_ hPnodup
      intro u hu v hv huv
      injection huv
    · apply List.Nodup.map_on ?_ hQnodup
      intro u hu v hv huv
      injection huv with h1 h2
    · intro x hx hx'
      rcases List.mem_map.mp hx with ⟨ci, hci, rfl⟩
      rcases List.mem_map.mp hx' with ⟨ri, hri, hco⟩
      have hcine : ci ≠ target.columnIndex := by
        rcases hPmem ci hci with hv | hv
        · exact (hpcv ci hv).2
        · exact (hncv ci hv).2
      have : target.columnIndex = ci := by injection hco
      exact hcine this.symm
  · intro x hx
    rw [CoordinateNavigator.getSurroundingCoordinates, mem_sortWith] at hx
    rcases List.mem_append.mp hx with hx' | hx'
    · rcases List.mem_map.mp hx' with ⟨ci, hci, rfl⟩
      left
      have hv := hPmem ci hci
      refine ⟨rfl, ?_, hv⟩
      rcases hv with hv | hv
      · exact (hpcv ci hv).2
      · exact (hncv ci hv).2
    · rcases List.mem_map.mp hx' with ⟨ri, hri, rfl⟩
      right
      have hv := hQmem ri hri
      refine ⟨rfl, ?_, hv⟩
      rcases hv with hv | hv
      · exact (hprv ri hv).2
      · exact (hnrv ri hv).2
  · rw [CoordinateNavigator.getSurroundingCoordinates, length_sortWith]
    rcases nav.findPreviousColumnIndex target.columnIndex with _ | pcv <;>
      rcases nav.findNextColumnIndex target.columnIndex with _ | ncv <;>
        rcases nav.findPreviousRowIndex target.rowIndex with _ | prv <;>
          rcases nav.findNextRowIndex target.rowIndex with _ | nrv <;>
            simp [List.filterMap]

end SurroundingClaim

section SurroundingWitness

/-- Witness for C8: the spec theorem applied to the example grid at C3. -/
theorem getSurroundingCoordinates_spec_witness :
    (nav5.getSurroundingCoordinates ⟨2, 3⟩).length ≤ 4 ∧
    (nav5.getSurroundingCoordinates ⟨2, 3⟩).Nodup :=
  ⟨(@getSurroundingCoordinates_spec Nat Nat _ _ nav5 cols5 rows5 (by decide)
      ⟨2, 3⟩ (by decide) (by decide)).1,
   (@getSurroundingCoordinates_spec Nat Nat _ _ nav5 cols5 rows5 (by decide)
      ⟨2, 3⟩ (by decide) (by decide)).2.1⟩

end SurroundingWitness

/-! ## Origin and index-sequence evaluation -/

section OriginLemmas

variable {α : Type u} {β : Type v} [DecidableEq α] [DecidableEq β]
variable {nav : CoordinateNavigator α β} {cols : List α} {rows : List β}

theorem getGridOrigin_eval (h : wellFormedGrid nav cols rows = true)
    {fuel : Nat} (hfuel : cols.length + rows.length ≤ fuel)
    (hc0 : 0 < cols.length) (hr0 : 0 < rows.length) :
    nav.getGridOrigin fuel = ⟨cols[0], rows[0]⟩ := by
  obtain ⟨hnc, hpc, hnr, hpr, hsc, hsr, href1, href2⟩ := wellFormedGrid_spec h
  rw [CoordinateNavigator.getGridOrigin, getOrigin]
  have hxl := List.indexOf_lt_length.mpr href1
  have hyl := List.indexOf_lt_length.mpr href2
  have h1 := findFirstIndex_chain hpc (cols.indexOf nav.reference.columnIndex) hxl fuel
    (by omega)
  have h2 := findFirstIndex_chain hpr (rows.indexOf nav.reference.rowIndex) hyl fuel
    (by omega)
  rw [List.getElem_indexOf hxl] at h1
  rw [List.getElem_indexOf hyl] at h2
  rw [h1, h2]
  rfl

theorem wf_cols_pos (h : wellFormedGrid nav cols rows = true) : 0 < cols.length := by
  obtain ⟨_, _, _, _, _, _, href1, _⟩ := wellFormedGrid_spec h
  exact List.length_pos.mpr (List.ne_nil_of_mem href1)

theorem wf_rows_pos (h : wellFormedGrid nav cols rows = true) : 0 < rows.length := by
  obtain ⟨_, _, _, _, _, _, _, href2⟩ := wellFormedGrid_spec h
  exact List.length_pos.mpr (List.ne_nil_of_mem href2)

end OriginLemmas

section MirrorClaim

variable {α : Type u} {β : Type v} [DecidableEq α] [DecidableEq β]
variable {nav : CoordinateNavigator α β} {cols : List α} {rows : List β}

/-- C10: on a well-formed grid, for any coordinate list whose row indices all
occur in the grid's row sequence, `mirror` is an involution — applying it
twice returns the original list element for element — and a single `mirror`
leaves every column index unchanged. -/
theorem mirror_involution (h : wellFormedGrid nav cols rows = true)
    {fuel : Nat} (hfuel : cols.length + rows.length ≤ fuel)
    (coordinates : List (Coordinate α β))
    (hrows : ∀ c ∈ coordinates, c.rowIndex ∈ rows) :
    nav.mirror fuel (nav.mirror fuel coordinates) = coordinates ∧
    (nav.mirror fuel coordinates).map (fun c => c.columnIndex) =
      coordinates.map (fun c => c.columnIndex) := by
  obtain ⟨hnc, hpc, hnr, hpr, hsc, hsr, href1, href2⟩ := wellFormedGrid_spec h
  have hc0 := wf_cols_pos h
  have hr0 := wf_rows_pos h
  have hndr : rows.Nodup := sorterConsistent_nodup hsr
  have horig := getGridOrigin_eval h hfuel hc0 hr0
  have hrowIdx :
      createIndices fuel (nav.getGridOrigin fuel).rowIndex nav.findNextRowIndex = rows := by
    rw [horig]
    have := createIndices_chain hnr 0 hr0 fuel (by omega)
    simpa using this
  have hmirror : ∀ l : List (Coordinate α β),
      nav.mirror fuel l = l.map (fun c =>
        ⟨c.columnIndex, rows.reverse.getD (rows.indexOf c.rowIndex) c.rowIndex⟩) := by
    intro l
    rw [CoordinateNavigator.mirror]
    rw [hrowIdx]
  -- the pointwise row reflection
  have hpsi : ∀ r, (hr : r ∈ rows) →
      rows.reverse.getD (rows.indexOf r) r =
        rows.get ⟨rows.length - 1 - rows.indexOf r,
          by have := List.indexOf_lt_length.mpr hr; omega⟩ := by
    intro r hr
    have hrl : rows.indexOf r < rows.length := List.indexOf_lt_length.mpr hr
    have hlen : rows.indexOf r < rows.reverse.length := by
      rw [List.length_reverse]
      exact hrl
    rw [List.getD_eq_getElem?_getD, List.getElem?_eq_getElem hlen]
    simp only [Option.getD_some]
    exact List.getElem_reverse hlen
  have hpsi2 : ∀ r ∈ rows,
      rows.reverse.getD
        (rows.indexOf (rows.reverse.getD (rows.indexOf r) r))
        (rows.reverse.getD (rows.indexOf r) r) = r := by
    intro r hr
    have hrl : rows.indexOf r < rows.length := List.indexOf_lt_length.mpr hr
    rw [hpsi r hr]
    have hmem : rows.get ⟨rows.length - 1 - rows.indexOf r, by omega⟩ ∈ rows :=
      List.get_mem _ _ _
    rw [hpsi _ hmem]
    have hidx : rows.indexOf
        (rows.get ⟨rows.length - 1 - rows.indexOf r, by omega⟩) =
        rows.length - 1 - rows.indexOf r :=
      List.indexOf_getElem hndr _ _
    have hii : rows.length - 1 - (rows.length - 1 - rows.indexOf r) = rows.indexOf r := by
      omega
    have hq : rows[rows.length - 1 - rows.indexOf
        (rows.get ⟨rows.length - 1 - rows.indexOf r, by omega⟩)]? = some r := by
      rw [hidx, hii, List.getElem?_eq_getElem hrl, List.getElem_indexOf hrl]
    obtain ⟨hlt, heq⟩ := List.getElem?_eq_some.mp hq
    exact heq
  refine ⟨?_, ?_⟩
  · rw [hmirror, hmirror, List.map_map]
    have : ∀ c ∈ coordinates,
        ((fun c : Coordinate α β =>
            (⟨c.columnIndex, rows.reverse.getD (rows.indexOf c.rowIndex) c.rowIndex⟩ :
              Coordinate α β)) ∘
          (fun c : Coordinate α β =>
            (⟨c.columnIndex, rows.reverse.getD (rows.indexOf c.rowIndex) c.rowIndex⟩ :
              Coordinate α β))) c = c := by
      intro c hcmem
      simp only [Function.comp]
      have := hpsi2 c.rowIndex (hrows c hcmem)
      cases c
      simp_all
    rw [List.map_congr_left this]
    exact List.map_id _
  · rw [hmirror, List.map_map]
    rfl

/-- Witness for C10: a mirrored-twice list on the example grid. -/
theorem mirror_involution_witness :
    nav5.mirror 10 (nav5.mirror 10 [⟨0, 1⟩, ⟨2, 3⟩]) = [⟨0, 1⟩, ⟨2, 3⟩] :=
  (@mirror_involution Nat Nat _ _ nav5 cols5 rows5 (by decide) 10 (by decide)
    [⟨0, 1⟩, ⟨2, 3⟩] (by decide)).1

end MirrorClaim

/-! ## Structure of `findAlignments` results -/

section AlignmentLemmas

variable {α : Type u} {β : Type v} [DecidableEq α] [DecidableEq β]
variable {nav : CoordinateNavigator α β}

theorem findDir_horizontal {c r : Coordinate α β}
    (h : findCoordinatesAlignmentDirection c r = some .HORIZONTAL) :
    c.rowIndex = r.rowIndex ∧ c.columnIndex ≠ r.columnIndex := by
  rw [findCoordinatesAlignmentDirection] at h
  by_cases h1 : c.columnIndex = r.columnIndex
  · rw [if_pos h1] at h
    simp at h
  · rw [if_neg h1] at h
    by_cases h2 : c.rowIndex = r.rowIndex
    · exact ⟨h2, h1⟩
    · rw [if_neg h2] at h
      simp at h

theorem findDir_vertical {c r : Coordinate α β}
    (h : findCoordinatesAlignmentDirection c r = some .VERTICAL) :
    c.columnIndex = r.columnIndex := by
  rw [findCoordinatesAlignmentDirection] at h
  by_cases h1 : c.columnIndex = r.columnIndex
  · exact h1
  · rw [if_neg h1] at h
    by_cases h2 : c.rowIndex = r.rowIndex
    · rw [if_pos h2] at h
      simp at h
    · rw [if_neg h2] at h
      simp at h

/-- The backbone extraction: an alignment produced before the redundancy
filter has more than one listed coordinate, carries a direction `d`, and its
coordinate list is a permutation of the valid `d`-aligned candidates drawn
from the sorted input's strict suffix after the reference, plus the reference
itself; the reference position is the last occurrence of its value. -/
theorem mem_findAlignmentsBefore_spec {fuel : Nat}
    {coords : List (Coordinate α β)} {maxDistance : Nat} {A : CoordinateAlignment α β}
    (hA : A ∈ nav.findAlignmentsBeforeRedundancyFilter fuel coords maxDistance) :
    1 < A.coordinates.length ∧
    ∃ i, ∃ hi : i < (sortWith nav.createCoordinatesSorter coords).length, ∃ d,
      A.direction = d ∧
      (∀ j, (hj : j < (sortWith nav.createCoordinatesSorter coords).length) → i < j →
        (sortWith nav.createCoordinatesSorter coords)[j] ≠
          (sortWith nav.createCoordinatesSorter coords)[i]) ∧
      A.coordinates =
        sortWith nav.createCoordinatesSorter
          (((sortWith nav.createCoordinatesSorter coords).drop (i + 1)).filter
            (fun c =>
              decide (findCoordinatesAlignmentDirection c
                  ((sortWith nav.createCoordinatesSorter coords)[i]) = some d) &&
              CoordinateNavigator.filterInvalidAlignmentCandidate maxDistance
                (nav.mapCandidateToPotentialAlignment fuel c
                  ((sortWith nav.createCoordinatesSorter coords)[i]))) ++
            [(sortWith nav.createCoordinatesSorter coords)[i]]) := by
  classical
  set S := sortWith nav.createCoordinatesSorter coords with hS
  rw [CoordinateNavigator.findAlignmentsBeforeRedundancyFilter] at hA
  rw [List.mem_filter] at hA
  obtain ⟨hflat, hlen⟩ := hA
  rw [List.mem_flatten] at hflat
  obtain ⟨l, hl, hAl⟩ := hflat
  rw [List.mem_map] at hl
  obtain ⟨e, he, rfl⟩ := hl
  rw [List.mem_filter] at he
  obtain ⟨he2, _⟩ := he
  rw [List.mem_map] at he2
  obtain ⟨e0, he0, rfl⟩ := he2
  rw [List.mem_filter] at he0
  obtain ⟨he0m, _⟩ := he0
  obtain ⟨i, hi, hieq, hlast⟩ := mapFromEntries_spec he0m
  have hlenS : (S.enum.map
      (fun p => (p.2, S.drop (p.1 + 1)))).length = S.length := by
    rw [List.length_map, List.enum_length]
  rw [hlenS] at hi
  have hi2 : i < (S.enum.map (fun p => (p.2, S.drop (p.1 + 1)))).length := by
    rw [hlenS]; exact hi
  have hentry : (S.enum.map (fun p => (p.2, S.drop (p.1 + 1))))[i]? =
      some (S[i], S.drop (i + 1)) := by
    rw [List.getElem?_eq_getElem hi2]
    rw [List.getElem_map, List.getElem_enum]
  have hieqq : (S.enum.map (fun p => (p.2, S.drop (p.1 + 1))))[i]? = some e0 := by
    rw [List.getElem?_eq_getElem hi2]
    exact congrArg some hieq
  have hieq2 : (S[i], S.drop (i + 1)) = e0 :=
    Option.some.inj (hentry.symm.trans hieqq)
  have he0fst : e0.1 = S[i] := by rw [← hieq2]
  have he0snd : e0.2 = S.drop (i + 1) := by rw [← hieq2]
  have hlast' : ∀ j, (hj : j < S.length) → i < j → S[j] ≠ S[i] := by
    intro j hj hij
    have hj2 : j < (S.enum.map (fun p => (p.2, S.drop (p.1 + 1)))).length := by
      rw [hlenS]; exact hj
    have hne := hlast j hj2 hij
    rw [he0fst] at hne
    have hfst : ((S.enum.map (fun p => (p.2, S.drop (p.1 + 1)))).get ⟨j, hj2⟩).1 =
        S[j] := by
      rw [List.get_eq_getElem, List.getElem_map, List.getElem_enum]
    rw [← hfst]
    exact hne
  -- A is one of the two groups built over this entry
  have hgroups : A = CoordinateNavigator.groupCandidatesFromDirection
        nav.createCoordinatesSorter .HORIZONTAL
        ((e0.2.map (fun c => nav.mapCandidateToPotentialAlignment fuel c e0.1)).filter
          (CoordinateNavigator.filterInvalidAlignmentCandidate maxDistance)) e0.1 ∨
      A = CoordinateNavigator.groupCandidatesFromDirection
        nav.createCoordinatesSorter .VERTICAL
        ((e0.2.map (fun c => nav.mapCandidateToPotentialAlignment fuel c e0.1)).filter
          (CoordinateNavigator.filterInvalidAlignmentCandidate maxDistance)) e0.1 := by
    rcases List.mem_cons.mp hAl with h1 | h1
    · exact Or.inl h1
    · rcases List.mem_cons.mp h1 with h2 | h2
      · exact Or.inr h2
      · simp at h2
  refine ⟨by simpa using hlen, i, hi, ?_⟩
  have hbase : ∀ d : ShipDirection,
      (CoordinateNavigator.groupCandidatesFromDirection
        nav.createCoordinatesSorter d
        ((e0.2.map (fun c => nav.mapCandidateToPotentialAlignment fuel c e0.1)).filter
          (CoordinateNavigator.filterInvalidAlignmentCandidate maxDistance))
        e0.1).coordinates =
      sortWith nav.createCoordinatesSorter
        ((S.drop (i + 1)).filter
          (fun c =>
            decide (findCoordinatesAlignmentDirection c S[i] = some d) &&
            CoordinateNavigator.filterInvalidAlignmentCandidate maxDistance
              (nav.mapCandidateToPotentialAlignment fuel c S[i])) ++
          [S[i]]) := by
    intro d
    rw [CoordinateNavigator.groupCandidatesFromDirection]
    rw [he0fst, he0snd]
    rw [List.filter_filter, List.filter_map]
    rw [List.map_map]
    have : ((fun ac : CoordinateAlignmentCandidate α β => ac.candidate) ∘
        fun c => nav.mapCandidateToPotentialAlignment fuel c S[i]) = fun c => c := rfl
    rw [this]
    have : ((fun ac : CoordinateAlignmentCandidate α β =>
          decide (ac.alignment = some d) &&
            CoordinateNavigator.filterInvalidAlignmentCandidate maxDistance ac) ∘
        fun c => nav.mapCandidateToPotentialAlignment fuel c S[i]) =
        fun c =>
          decide (findCoordinatesAlignmentDirection c S[i] = some d) &&
          CoordinateNavigator.filterInvalidAlignmentCandidate maxDistance
            (nav.mapCandidateToPotentialAlignment fuel c S[i]) := rfl
    rw [this]
    simp
  rcases hgroups with rfl | rfl
  · exact ⟨.HORIZONTAL, rfl, hlast', hbase .HORIZONTAL⟩
  · exact ⟨.VERTICAL, rfl, hlast', hbase .VERTICAL⟩

end AlignmentLemmas

section AlignmentClaims

variable {α : Type u} {β : Type v} [DecidableEq α] [DecidableEq β]
variable {nav : CoordinateNavigator α β}

theorem mem_findAlignments_sub {fuel : Nat} {coords : List (Coordinate α β)}
    {maxDistance : Nat} {A : CoordinateAlignment α β}
    (hA : A ∈ nav.findAlignments fuel coords maxDistance) :
    A ∈ nav.findAlignmentsBeforeRedundancyFilter fuel coords maxDistance := by
  rw [CoordinateNavigator.findAlignments] at hA
  rw [List.mem_map] at hA
  obtain ⟨p, hp, rfl⟩ := hA
  rw [List.mem_filter] at hp
  obtain ⟨hp1, _⟩ := hp
  rw [List.mem_enum_iff_getElem?] at hp1
  obtain ⟨_, heq⟩ := List.getElem?_eq_some.mp hp1
  rw [← heq]
  exact List.getElem_mem _

/-- C4 (amended): every alignment returned by `findAlignments` has at least 2
coordinates; its direction matches the axis shared by all its members
(HORIZONTAL groups share one row index, VERTICAL groups one column index);
and, provided the input collection has no duplicate coordinates, no two
members of the same group are structurally equal.  (With duplicated inputs a
group can repeat a coordinate, see the counterexample.) -/
theorem findAlignments_group_properties {fuel : Nat} {coords : List (Coordinate α β)}
    {maxDistance : Nat} {A : CoordinateAlignment α β}
    (hA : A ∈ nav.findAlignments fuel coords maxDistance) :
    2 ≤ A.coordinates.length ∧
    (A.direction = .HORIZONTAL →
      ∀ c1 ∈ A.coordinates, ∀ c2 ∈ A.coordinates, c1.rowIndex = c2.rowIndex) ∧
    (A.direction = .VERTICAL →
      ∀ c1 ∈ A.coordinates, ∀ c2 ∈ A.coordinates, c1.columnIndex = c2.columnIndex) ∧
    (coords.Nodup → A.coordinates.Nodup) := by
  obtain ⟨hlen, i, hi, d, hdir, hlast, heq⟩ :=
    mem_findAlignmentsBefore_spec (mem_findAlignments_sub hA)
  set S := sortWith nav.createCoordinatesSorter coords with hS
  have hmem : ∀ c ∈ A.coordinates,
      c = S[i] ∨ (c ∈ S.drop (i + 1) ∧
        findCoordinatesAlignmentDirection c S[i] = some d) := by
    intro c hc
    rw [heq, mem_sortWith, List.mem_append] at hc
    rcases hc with hc | hc
    · rw [List.mem_filter] at hc
      obtain ⟨hcd, hcp⟩ := hc
      rw [Bool.and_eq_true, decide_eq_true_eq] at hcp
      exact Or.inr ⟨hcd, hcp.1⟩
    · left
      simpa using hc
  refine ⟨hlen, ?_, ?_, ?_⟩
  · intro hH c1 hc1 c2 hc2
    have hd : d = .HORIZONTAL := by rw [← hdir, hH]
    subst hd
    have hrow : ∀ c ∈ A.coordinates, c.rowIndex = (S[i]).rowIndex := by
      intro c hc
      rcases hmem c hc with rfl | ⟨_, hfd⟩
      · rfl
      · exact (findDir_horizontal hfd).1
    rw [hrow c1 hc1, hrow c2 hc2]
  · intro hV c1 hc1 c2 hc2
    have hd : d = .VERTICAL := by rw [← hdir, hV]
    subst hd
    have hcol : ∀ c ∈ A.coordinates, c.columnIndex = (S[i]).columnIndex := by
      intro c hc
      rcases hmem c hc with rfl | ⟨_, hfd⟩
      · rfl
      · exact findDir_vertical hfd
    rw [hcol c1 hc1, hcol c2 hc2]
  · intro hnd
    have hndS : S.Nodup := sortWith_nodup hnd
    rw [heq]
    apply sortWith_nodup
    rw [List.nodup_append]
    refine ⟨((List.filter_sublist _).trans (List.drop_sublist _ _)).nodup hndS,
      List.nodup_singleton _, ?_⟩
    intro x hx hx'
    have hxdrop : x ∈ S.drop (i + 1) :=
      List.Sublist.mem hx (List.filter_sublist _)
    have hxi : x = S[i] := by simpa using hx'
    obtain ⟨k, hk, hkx⟩ := List.mem_iff_getElem.mp hxdrop
    rw [List.getElem_drop] at hkx
    have : i + 1 + k = i := (hndS.getElem_inj_iff).mp (by rw [hkx, ← hxi])
    omega

/-- C4 (counterexample): with a duplicated input coordinate the returned group
can contain two structurally equal members — input `[A1, B1, B1]` yields the
horizontal group `[A1, B1, B1]`. -/
theorem findAlignments_duplicate_members_cex :
    ∃ A ∈ nav5.findAlignments 12 [⟨0, 1⟩, ⟨1, 1⟩, ⟨1, 1⟩] 4,
      ¬A.coordinates.Nodup := by
  decide

/-- Witness for C4 on the example grid (spec §8 example input, nodup). -/
theorem findAlignments_group_properties_witness :
    2 ≤ (CoordinateAlignment.mk ShipDirection.VERTICAL
        [⟨0, 1⟩, ⟨0, 2⟩, ⟨0, 3⟩, ⟨0, 5⟩]).coordinates.length ∧
    ((CoordinateAlignment.mk ShipDirection.VERTICAL
        [⟨0, 1⟩, ⟨0, 2⟩, ⟨0, 3⟩, ⟨0, 5⟩]).direction = .HORIZONTAL →
      ∀ c1 ∈ (CoordinateAlignment.mk ShipDirection.VERTICAL
        [⟨0, 1⟩, ⟨0, 2⟩, ⟨0, 3⟩, ⟨0, 5⟩]).coordinates,
      ∀ c2 ∈ (CoordinateAlignment.mk ShipDirection.VERTICAL
        [⟨0, 1⟩, ⟨0, 2⟩, ⟨0, 3⟩, ⟨0, 5⟩]).coordinates,
        c1.rowIndex = c2.rowIndex) ∧
    ((CoordinateAlignment.mk ShipDirection.VERTICAL
        [⟨0, 1⟩, ⟨0, 2⟩, ⟨0, 3⟩, ⟨0, 5⟩]).direction = .VERTICAL →
      ∀ c1 ∈ (CoordinateAlignment.mk ShipDirection.VERTICAL
        [⟨0, 1⟩, ⟨0, 2⟩, ⟨0, 3⟩, ⟨0, 5⟩]).coordinates,
      ∀ c2 ∈ (CoordinateAlignment.mk ShipDirection.VERTICAL
        [⟨0, 1⟩, ⟨0, 2⟩, ⟨0, 3⟩, ⟨0, 5⟩]).coordinates,
        c1.columnIndex = c2.columnIndex) ∧
    ([(⟨0, 1⟩ : Coordinate Nat Nat), ⟨0, 2⟩, ⟨0, 3⟩, ⟨0, 5⟩, ⟨4, 1⟩].Nodup →
      (CoordinateAlignment.mk ShipDirection.VERTICAL
        [⟨0, 1⟩, ⟨0, 2⟩, ⟨0, 3⟩, ⟨0, 5⟩]).coordinates.Nodup) :=
  @findAlignments_group_properties Nat Nat _ _ nav5 12
    [⟨0, 1⟩, ⟨0, 2⟩, ⟨0, 3⟩, ⟨0, 5⟩, ⟨4, 1⟩] 4
    (CoordinateAlignment.mk ShipDirection.VERTICAL [⟨0, 1⟩, ⟨0, 2⟩, ⟨0, 3⟩, ⟨0, 5⟩])
    (by decide)

theorem foldl_and_eq_all {γ : Type u} {f : γ → Bool} :
    ∀ (l : List γ) (b : Bool), l.foldl (fun acc x => acc && f x) b = (b && l.all f) := by
  intro l
  induction l with
  | nil => intro b; simp
  | cons x t ih =>
    intro b
    rw [List.foldl_cons, ih, List.all_cons]
    cases b <;> cases f x <;> simp

/-- C6 (amended): every output alignment of `findAlignments` originates at a
position `i` of the pre-redundancy sequence such that either `i = 0` or not
all of its coordinates are contained in the alignment at position `i - 1`;
only the immediate predecessor is ever checked, so the output can still
contain an alignment fully contained in an earlier, non-adjacent one. -/
theorem findAlignments_redundancy_filter {fuel : Nat} {coords : List (Coordinate α β)}
    {maxDistance : Nat} {A : CoordinateAlignment α β}
    (hA : A ∈ nav.findAlignments fuel coords maxDistance) :
    ∃ i, ∃ hi : i < (nav.findAlignmentsBeforeRedundancyFilter fuel coords
        maxDistance).length,
      (nav.findAlignmentsBeforeRedundancyFilter fuel coords maxDistance)[i] = A ∧
      (i = 0 ∨
        ¬∀ c ∈ A.coordinates,
          c ∈ ((nav.findAlignmentsBeforeRedundancyFilter fuel coords
              maxDistance).get ⟨i - 1, by omega⟩).coordinates) := by
  rw [CoordinateNavigator.findAlignments] at hA
  rw [List.mem_map] at hA
  obtain ⟨p, hp, rfl⟩ := hA
  rw [List.mem_filter] at hp
  obtain ⟨hp1, hp2⟩ := hp
  rw [List.mem_enum_iff_getElem?] at hp1
  obtain ⟨hi, heq⟩ := List.getElem?_eq_some.mp hp1
  refine ⟨p.1, hi, heq, ?_⟩
  by_cases h0 : p.1 = 0
  · exact Or.inl h0
  · right
    rw [CoordinateNavigator.filterRedundantAlignments, if_neg h0] at hp2
    have hprev : p.1 - 1 < (nav.findAlignmentsBeforeRedundancyFilter fuel coords
        maxDistance).length := by omega
    rw [List.get?_eq_getElem? , List.getElem?_eq_getElem hprev] at hp2
    have hp2' : (!(p.2.coordinates.foldl
        (fun acc c => acc &&
          ((nav.findAlignmentsBeforeRedundancyFilter fuel coords
            maxDistance).get ⟨p.1 - 1, hprev⟩).coordinates.contains c)
        true)) = true := hp2
    rw [foldl_and_eq_all, Bool.true_and, Bool.not_eq_true'] at hp2'
    intro hall
    have hcontra : p.2.coordinates.all (fun c =>
        ((nav.findAlignmentsBeforeRedundancyFilter fuel coords
          maxDistance).get ⟨p.1 - 1, hprev⟩).coordinates.contains c) = true :=
      List.all_eq_true.mpr (fun c hc => by simpa using hall c hc)
    rw [hcontra] at hp2'
    exact absurd hp2' (by simp)

/-- C6 (counterexample): on input `{A1, A2, A3, B2}` the output contains the
alignment `V[A2, A3]` whose coordinate set is fully contained in the earlier,
non-adjacent alignment `V[A1, A2, A3]` — the claimed global containment
freeness is false. -/
theorem findAlignments_containment_cex :
    ∃ A ∈ nav5.findAlignments 12 [⟨0, 1⟩, ⟨0, 2⟩, ⟨0, 3⟩, ⟨1, 2⟩] 4,
      ∃ B ∈ nav5.findAlignments 12 [⟨0, 1⟩, ⟨0, 2⟩, ⟨0, 3⟩, ⟨1, 2⟩] 4,
        A ≠ B ∧ ∀ c ∈ A.coordinates, c ∈ B.coordinates := by
  decide

/-- Witness for C6's amended theorem at a concrete output alignment. -/
theorem findAlignments_redundancy_filter_witness :
    ∃ i, ∃ hi : i < (nav5.findAlignmentsBeforeRedundancyFilter 12
        [⟨0, 1⟩, ⟨0, 2⟩, ⟨0, 3⟩, ⟨1, 2⟩] 4).length,
      (nav5.findAlignmentsBeforeRedundancyFilter 12
        [⟨0, 1⟩, ⟨0, 2⟩, ⟨0, 3⟩, ⟨1, 2⟩] 4)[i] =
        CoordinateAlignment.mk ShipDirection.VERTICAL [⟨0, 2⟩, ⟨0, 3⟩] ∧
      (i = 0 ∨
        ¬∀ c ∈ (CoordinateAlignment.mk ShipDirection.VERTICAL
            [(⟨0, 2⟩ : Coordinate Nat Nat), ⟨0, 3⟩]).coordinates,
          c ∈ ((nav5.findAlignmentsBeforeRedundancyFilter 12
              [⟨0, 1⟩, ⟨0, 2⟩, ⟨0, 3⟩, ⟨1, 2⟩] 4).get ⟨i - 1, by omega⟩).coordinates) :=
  @findAlignments_redundancy_filter Nat Nat _ _ nav5 12
    [⟨0, 1⟩, ⟨0, 2⟩, ⟨0, 3⟩, ⟨1, 2⟩] 4
    (CoordinateAlignment.mk ShipDirection.VERTICAL [⟨0, 2⟩, ⟨0, 3⟩])
    (by decide)

end AlignmentClaims

/-! ## Ordered deduplication lemmas -/

section DedupLemmas

variable {γ : Type u} [DecidableEq γ]

theorem orderedDedupAux_sublist : ∀ (seen l : List γ), (orderedDedupAux seen l).Sublist l := by
  intro seen l
  induction l generalizing seen with
  | nil => simp [orderedDedupAux]
  | cons a rest ih =>
    rw [orderedDedupAux]
    by_cases ha : a ∈ seen
    · rw [if_pos ha]
      exact (ih seen).trans (List.sublist_cons_self a rest)
    · rw [if_neg ha]
      exact (ih (a :: seen)).cons₂ a

theorem mem_orderedDedupAux {seen l : List γ} {x : γ} :
    x ∈ orderedDedupAux seen l ↔ x ∈ l ∧ x ∉ seen := by
  induction l generalizing seen with
  | nil => simp [orderedDedupAux]
  | cons a rest ih =>
    rw [orderedDedupAux]
    by_cases ha : a ∈ seen
    · rw [if_pos ha]
      rw [ih]
      constructor
      · rintro ⟨h1, h2⟩
        exact ⟨List.mem_cons_of_mem _ h1, h2⟩
      · rintro ⟨h1, h2⟩
        rcases List.mem_cons.mp h1 with rfl | h1
        · exact absurd ha h2
        · exact ⟨h1, h2⟩
    · rw [if_neg ha]
      constructor
      · intro hx
        rcases List.mem_cons.mp hx with rfl | hx
        · exact ⟨List.mem_cons_self _ _, ha⟩
        · rw [ih] at hx
          refine ⟨List.mem_cons_of_mem _ hx.1, ?_⟩
          intro hc
          exact hx.2 (List.mem_cons_of_mem _ hc)
      · rintro ⟨h1, h2⟩
        rcases List.mem_cons.mp h1 with rfl | h1
        · exact List.mem_cons_self _ _
        · by_cases hxa : x = a
          · subst hxa
            exact List.mem_cons_self _ _
          · refine List.mem_cons_of_mem _ (ih.mpr ⟨h1, ?_⟩)
            intro hc
            rcases List.mem_cons.mp hc with h | h
            · exact hxa h
            · exact h2 h

theorem orderedDedupAux_nodup : ∀ (seen l : List γ), (orderedDedupAux seen l).Nodup := by
  intro seen l
  induction l generalizing seen with
  | nil => simp [orderedDedupAux]
  | cons a rest ih =>
    rw [orderedDedupAux]
    by_cases ha : a ∈ seen
    · rw [if_pos ha]
      exact ih seen
    · rw [if_neg ha]
      rw [List.nodup_cons]
      refine ⟨?_, ih (a :: seen)⟩
      intro hc
      exact (mem_orderedDedupAux.mp hc).2 (List.mem_cons_self _ _)

theorem orderedDedup_sublist (l : List γ) : (orderedDedup l).Sublist l :=
  orderedDedupAux_sublist [] l

theorem mem_orderedDedup {l : List γ} {x : γ} : x ∈ orderedDedup l ↔ x ∈ l := by
  rw [orderedDedup, mem_orderedDedupAux]
  simp

theorem orderedDedup_nodup (l : List γ) : (orderedDedup l).Nodup :=
  orderedDedupAux_nodup [] l

end DedupLemmas

/-! ## The sorter restricted to one axis -/

section SorterRestriction

variable {α : Type u} {β : Type v} [DecidableEq α] [DecidableEq β]
variable {nav : CoordinateNavigator α β} {cols : List α} {rows : List β}

theorem coordSorter_le_lex_iff
    (hc : sorterConsistent nav.columnIndexSorter cols = true)
    (hr : sorterConsistent nav.rowIndexSorter rows = true)
    {a b : Coordinate α β} (ha1 : a.columnIndex ∈ cols) (ha2 : a.rowIndex ∈ rows)
    (hb1 : b.columnIndex ∈ cols) (hb2 : b.rowIndex ∈ rows) :
    nav.createCoordinatesSorter a b ≤ 0 ↔
      (rows.indexOf a.rowIndex < rows.indexOf b.rowIndex ∨
        (rows.indexOf a.rowIndex = rows.indexOf b.rowIndex ∧
          cols.indexOf a.columnIndex ≤ cols.indexOf b.columnIndex)) := by
  have hgt := coordSorter_gt_iff hc hr ha1 ha2 hb1 hb2
  constructor
  · intro hle
    have : ¬nav.createCoordinatesSorter a b > 0 := by omega
    rw [hgt] at this
    omega
  · intro hlex
    have : ¬nav.createCoordinatesSorter a b > 0 := by
      rw [hgt]
      omega
    omega

theorem coordSorter_le_iff_col
    (hc : sorterConsistent nav.columnIndexSorter cols = true)
    (hr : sorterConsistent nav.rowIndexSorter rows = true)
    {a b : Coordinate α β} (ha1 : a.columnIndex ∈ cols) (ha2 : a.rowIndex ∈ rows)
    (hb1 : b.columnIndex ∈ cols) (hb2 : b.rowIndex ∈ rows)
    (hrow : a.rowIndex = b.rowIndex) :
    nav.createCoordinatesSorter a b ≤ 0 ↔
      cols.indexOf a.columnIndex ≤ cols.indexOf b.columnIndex := by
  rw [coordSorter_le_lex_iff hc hr ha1 ha2 hb1 hb2, hrow]
  omega

theorem coordSorter_le_iff_row
    (hc : sorterConsistent nav.columnIndexSorter cols = true)
    (hr : sorterConsistent nav.rowIndexSorter rows = true)
    {a b : Coordinate α β} (ha1 : a.columnIndex ∈ cols) (ha2 : a.rowIndex ∈ rows)
    (hb1 : b.columnIndex ∈ cols) (hb2 : b.rowIndex ∈ rows)
    (hcol : a.columnIndex = b.columnIndex) :
    nav.createCoordinatesSorter a b ≤ 0 ↔
      rows.indexOf a.rowIndex ≤ rows.indexOf b.rowIndex := by
  rw [coordSorter_le_lex_iff hc hr ha1 ha2 hb1 hb2, hcol]
  constructor
  · intro h
    omega
  · intro h
    rcases Nat.lt_or_ge (rows.indexOf a.rowIndex) (rows.indexOf b.rowIndex) with h' | h'
    · exact Or.inl h'
    · exact Or.inr ⟨by omega, le_rfl⟩

end SorterRestriction

/-! ## Sorting then deduplicating one axis of a coordinate list -/

section DedupSorted

variable {γ : Type w} {δ : Type x} [DecidableEq γ] [DecidableEq δ]

/-- Sorting a list by a comparator that mirrors axis positions through `π`,
projecting to the axis and deduplicating yields a nodup list, weakly
position-sorted, with exactly the projected members. -/
theorem dedupSorted_spec {M : List δ} {cmp : δ → δ → Int} {π : δ → γ} {L : List γ}
    (hord : ∀ a ∈ M, ∀ b ∈ M,
      (cmp a b ≤ 0 ↔ L.indexOf (π a) ≤ L.indexOf (π b))) :
    (orderedDedup ((sortWith cmp M).map π)).Nodup ∧
    (orderedDedup ((sortWith cmp M).map π)).Pairwise
      (fun x y => L.indexOf x ≤ L.indexOf y) ∧
    (∀ x, x ∈ orderedDedup ((sortWith cmp M).map π) ↔ ∃ c ∈ M, π c = x) := by
  have hsorted : (sortWith cmp M).Pairwise (fun a b => cmp a b ≤ 0) := by
    apply sortWith_pairwise
    · intro a ha b hb
      rw [hord a ha b hb, hord b hb a ha]
      omega
    · intro a ha b hb c hc h1 h2
      rw [hord a ha b hb] at h1
      rw [hord b hb c hc] at h2
      rw [hord a ha c hc]
      omega
  have hmapped : ((sortWith cmp M).map π).Pairwise
      (fun x y => L.indexOf x ≤ L.indexOf y) := by
    rw [List.pairwise_map]
    apply hsorted.imp_of_mem
    intro a b ha hb hab
    rw [mem_sortWith] at ha hb
    exact (hord a ha b hb).mp hab
  refine ⟨orderedDedup_nodup _, List.Pairwise.sublist (orderedDedup_sublist _) hmapped, ?_⟩
  intro x
  rw [mem_orderedDedup, List.mem_map]
  constructor
  · rintro ⟨c, hc, rfl⟩
    exact ⟨c, mem_sortWith.mp hc, rfl⟩
  · rintro ⟨c, hc, rfl⟩
    exact ⟨c, mem_sortWith.mpr hc, rfl⟩

end DedupSorted

/-! ## Gap-filling closes an alignment: the index-level core -/

section MergeCore

variable {γ : Type u} [DecidableEq γ] {next : γ → Option γ} {L : List γ}

theorem two_mem_length_le {l : List γ} {x y : γ} (hx : x ∈ l) (hy : y ∈ l)
    (hne : x ≠ y) : 2 ≤ l.length := by
  rcases l with _ | ⟨a, _ | ⟨b, t⟩⟩
  · simp at hx
  · simp at hx hy
    subst hx
    subst hy
    exact absurd rfl hne
  · simp [Nat.le_add_left]

theorem pairwise_head_min {l : List γ} {R : γ → γ → Prop} (h : l.Pairwise R)
    (hne : l ≠ []) (hrefl : ∀ x ∈ l, R x x) : ∀ x ∈ l, R (l.head hne) x := by
  rcases l with _ | ⟨a, t⟩
  · exact absurd rfl hne
  · intro x hx
    rcases List.mem_cons.mp hx with rfl | hx
    · exact hrefl x (List.mem_cons_self _ _)
    · exact (List.pairwise_cons.mp h).1 x hx

theorem pairwise_getLast_max {l : List γ} {R : γ → γ → Prop} (h : l.Pairwise R)
    (hne : l ≠ []) (hrefl : ∀ x ∈ l, R x x) : ∀ x ∈ l, R x (l.getLast hne) := by
  intro x hx
  obtain ⟨k, hk, rfl⟩ := List.mem_iff_getElem.mp hx
  rw [List.getLast_eq_getElem]
  rcases Nat.lt_or_ge k (l.length - 1) with hlt | hge
  · exact (List.pairwise_iff_getElem.mp h) k (l.length - 1) hk (by omega) hlt
  · have : k = l.length - 1 := by omega
    subst this
    exact hrefl _ (List.getElem_mem _)

/-- Core of the C7 argument: if `S'` is a nodup, position-sorted index list
whose members are exactly those of `S` together with the gaps that
`findIndexGaps` found in `S`, then `S'` has no gaps left. -/
theorem findIndexGaps_merge_core
    (hch : chainNext next L = true) (hnd : L.Nodup)
    {S S' : List γ} {fuel : Nat} (hfuel : L.length ≤ fuel)
    (hsub : ∀ x ∈ S, x ∈ L) (hnds : S.Nodup)
    (hpair : S.Pairwise (fun x y => L.indexOf x ≤ L.indexOf y)) (hlen : 2 ≤ S.length)
    (hnds' : S'.Nodup)
    (hpair' : S'.Pairwise (fun x y => L.indexOf x ≤ L.indexOf y))
    (hset' : ∀ x, x ∈ S' ↔ (x ∈ S ∨ x ∈ findIndexGaps fuel S next)) :
    findIndexGaps fuel S' next = [] := by
  have hSne : S ≠ [] := by
    intro hc
    rw [hc] at hlen
    simp at hlen
  -- head and last of S, as positions in L
  have hheadS : S.head hSne ∈ S := List.head_mem hSne
  have hlastS : S.getLast hSne ∈ S := List.getLast_mem hSne
  have hheadL : S.head hSne ∈ L := hsub _ hheadS
  have hlastL : S.getLast hSne ∈ L := hsub _ hlastS
  have hi : L.indexOf (S.head hSne) < L.length := List.indexOf_lt_length.mpr hheadL
  have hj : L.indexOf (S.getLast hSne) < L.length := List.indexOf_lt_length.mpr hlastL
  have hgi : L[L.indexOf (S.head hSne)] = S.head hSne := List.getElem_indexOf hi
  have hgj : L[L.indexOf (S.getLast hSne)] = S.getLast hSne := List.getElem_indexOf hj
  have hhead? : S.head? = some (L[L.indexOf (S.head hSne)]) := by
    rw [hgi, List.head?_eq_head hSne]
  have hlast? : S.getLast? = some (L[L.indexOf (S.getLast hSne)]) := by
    rw [hgj, List.getLast?_eq_getLast _ hSne]
  have hrefl : ∀ x ∈ S, L.indexOf x ≤ L.indexOf x := fun _ _ => le_rfl
  have hminS : ∀ x ∈ S, L.indexOf (S.head hSne) ≤ L.indexOf x :=
    pairwise_head_min hpair hSne hrefl
  have hmaxS : ∀ x ∈ S, L.indexOf x ≤ L.indexOf (S.getLast hSne) :=
    pairwise_getLast_max hpair hSne hrefl
  have hij : L.indexOf (S.head hSne) < L.indexOf (S.getLast hSne) := by
    have hle : L.indexOf (S.head hSne) ≤ L.indexOf (S.getLast hSne) := hminS _ hlastS
    rcases Nat.lt_or_ge (L.indexOf (S.head hSne)) (L.indexOf (S.getLast hSne)) with h | h
    · exact h
    · have heq : L.indexOf (S.head hSne) = L.indexOf (S.getLast hSne) := by omega
      have hq : L[L.indexOf (S.head hSne)]? = L[L.indexOf (S.getLast hSne)]? := by
        rw [heq]
      rw [List.getElem?_eq_getElem hi, List.getElem?_eq_getElem hj, hgi, hgj] at hq
      have hthis : S.head hSne = S.getLast hSne := by injection hq
      have hh0 : S.head hSne = S.get ⟨0, by omega⟩ := List.head_eq_getElem S hSne
      have hl0 : S.getLast hSne = S.get ⟨S.length - 1, by omega⟩ :=
        List.getLast_eq_getElem S hSne
      rw [hh0, hl0] at hthis
      simp only [List.get_eq_getElem] at hthis
      have := (hnds.getElem_inj_iff).mp hthis
      omega
  set i := L.indexOf (S.head hSne) with hidef
  set j := L.indexOf (S.getLast hSne) with hjdef
  have hGaps := findIndexGaps_chain hch hnd hi hj hhead? hlast? hlen (by omega)
    (show j - i ≤ fuel by omega)
  -- the segment between the ends
  have hseg_mem : ∀ y ∈ (L.drop (i + 1)).take (j - i),
      ∃ p, ∃ hp : p < L.length, i < p ∧ p ≤ j ∧ L[p] = y := by
    intro y hy
    obtain ⟨k, hk, hke⟩ := List.mem_iff_getElem.mp hy
    rw [List.length_take, List.length_drop] at hk
    have hk1 : k < j - i := lt_of_lt_of_le hk (min_le_left _ _)
    have hk2 : k < L.length - (i + 1) := lt_of_lt_of_le hk (min_le_right _ _)
    refine ⟨i + 1 + k, by omega, by omega, by omega, ?_⟩
    rw [List.getElem_take, List.getElem_drop] at hke
    exact hke
  have hseg_get : ∀ p, (hp : p < L.length) → i < p → p ≤ j →
      L[p] ∈ (L.drop (i + 1)).take (j - i) := by
    intro p hp hip hpj
    rw [List.mem_iff_getElem]
    refine ⟨p - i - 1, ?_, ?_⟩
    · rw [List.length_take, List.length_drop]
      omega
    · rw [List.getElem_take, List.getElem_drop]
      congr 1
      omega
  -- membership of S' in L, and its position bounds
  have hsub' : ∀ x ∈ S', x ∈ L := by
    intro x hx
    rcases (hset' x).mp hx with hx | hx
    · exact hsub x hx
    · rw [hGaps, List.mem_filter] at hx
      obtain ⟨p, hp, _, _, rfl⟩ := hseg_mem x hx.1
      exact List.getElem_mem _
  have hbound' : ∀ x ∈ S', i ≤ L.indexOf x ∧ L.indexOf x ≤ j := by
    intro x hx
    rcases (hset' x).mp hx with hx | hx
    · exact ⟨hminS x hx, hmaxS x hx⟩
    · rw [hGaps, List.mem_filter] at hx
      obtain ⟨p, hp, hip, hpj, rfl⟩ := hseg_mem x hx.1
      rw [List.indexOf_getElem hnd]
      omega
  have hmem_i : L[i] ∈ S' := by
    rw [hset']
    left
    rw [hgi]
    exact hheadS
  have hmem_j : L[j] ∈ S' := by
    rw [hset']
    left
    rw [hgj]
    exact hlastS
  have hS'ne : S' ≠ [] := List.ne_nil_of_mem hmem_i
  have hlen' : 2 ≤ S'.length := by
    apply two_mem_length_le hmem_i hmem_j
    intro hc
    have := (hnd.getElem_inj_iff).mp hc
    omega
  -- head and last of S' are again L[i] and L[j]
  have hrefl' : ∀ x ∈ S', L.indexOf x ≤ L.indexOf x := fun _ _ => le_rfl
  have hhead' : S'.head hS'ne = L[i] := by
    have hmin' := pairwise_head_min hpair' hS'ne hrefl' _ hmem_i
    rw [List.indexOf_getElem hnd] at hmin'
    have hb := (hbound' _ (List.head_mem hS'ne)).1
    have hidx : L.indexOf (S'.head hS'ne) = i := by omega
    have hhl : S'.head hS'ne ∈ L := hsub' _ (List.head_mem hS'ne)
    rw [← List.getElem_indexOf (List.indexOf_lt_length.mpr hhl)]
    congr 1
  have hlast' : S'.getLast hS'ne = L[j] := by
    have hmax' := pairwise_getLast_max hpair' hS'ne hrefl' _ hmem_j
    rw [List.indexOf_getElem hnd] at hmax'
    have hb := (hbound' _ (List.getLast_mem hS'ne)).2
    have hidx : L.indexOf (S'.getLast hS'ne) = j := by omega
    have hll : S'.getLast hS'ne ∈ L := hsub' _ (List.getLast_mem hS'ne)
    rw [← List.getElem_indexOf (List.indexOf_lt_length.mpr hll)]
    congr 1
  have hhead?' : S'.head? = some (L[i]) := by
    rw [List.head?_eq_head hS'ne, hhead']
  have hlast?' : S'.getLast? = some (L[j]) := by
    rw [List.getLast?_eq_getLast _ hS'ne, hlast']
  rw [findIndexGaps_chain hch hnd hi hj hhead?' hlast?' hlen' (by omega)
    (show j - i ≤ fuel by omega)]
  rw [List.filter_eq_nil_iff]
  intro y hy
  obtain ⟨p, hp, hip, hpj, rfl⟩ := hseg_mem y hy
  have hyS' : L[p] ∈ S' := by
    rw [hset']
    by_cases hyS : L[p] ∈ S
    · exact Or.inl hyS
    · right
      rw [hGaps, List.mem_filter]
      refine ⟨hseg_get p hp hip hpj, ?_⟩
      simpa using hyS
  simp [hyS']

theorem findIndexGapsWalk_mem {last : γ} {S : List γ}
    (hch : chainNext next L = true) :
    ∀ (fuel : Nat) (cur : γ), cur ∈ L →
      ∀ y ∈ findIndexGapsWalk next last S fuel cur, y ∈ L ∧ y ∉ S := by
  intro fuel
  induction fuel with
  | zero =>
    intro cur hcur y hy
    rw [findIndexGapsWalk] at hy
    by_cases hc : cur = last
    · rw [if_pos hc] at hy
      simp at hy
    · rw [if_neg hc] at hy
      simp at hy
  | succ f ih =>
    intro cur hcur y hy
    rw [findIndexGapsWalk] at hy
    by_cases hc : cur = last
    · rw [if_pos hc] at hy
      simp at hy
    · rw [if_neg hc] at hy
      rcases hnext : next cur with _ | z
      · rw [hnext] at hy
        simp at hy
      · rw [hnext] at hy
        have hzL : z ∈ L := by
          obtain ⟨k, hk, rfl⟩ := List.mem_iff_getElem.mp hcur
          have := chainNext_getElem hch hk
          rw [hnext] at this
          obtain ⟨_, hz⟩ := List.getElem?_eq_some.mp this.symm
          rw [← hz]
          exact List.getElem_mem _
        rcases List.mem_append.mp hy with hy1 | hy1
        · by_cases hzS : S.contains z
          · rw [if_pos hzS] at hy1
            simp at hy1
          · rw [if_neg hzS] at hy1
            obtain rfl : y = z := by simpa using hy1
            refine ⟨hzL, ?_⟩
            simpa using hzS
        · exact ih z hzL y hy1

theorem findIndexGaps_mem {S : List γ} {fuel : Nat}
    (hch : chainNext next L = true) (hsub : ∀ x ∈ S, x ∈ L) :
    ∀ y ∈ findIndexGaps fuel S next, y ∈ L ∧ y ∉ S := by
  intro y hy
  rw [findIndexGaps] at hy
  rcases hh : S.head? with _ | first
  · rw [hh] at hy
    simp at hy
  · rcases hl : S.getLast? with _ | lastv
    · rw [hh, hl] at hy
      simp at hy
    · rw [hh, hl] at hy
      have hy' : y ∈ (if S.length ≤ 1 then []
          else findIndexGapsWalk next ((some lastv).getD first) S fuel first) := hy
      by_cases hle : S.length ≤ 1
      · rw [if_pos hle] at hy'
        simp at hy'
      · rw [if_neg hle] at hy'
        have hfirst : first ∈ S := List.mem_of_mem_head? hh
        exact findIndexGapsWalk_mem hch fuel first (hsub _ hfirst) y hy'

end MergeCore

section GapsClaim

variable {α : Type u} {β : Type v} [DecidableEq α] [DecidableEq β]
variable {nav : CoordinateNavigator α β} {cols : List α} {rows : List β}

theorem findAlignmentGaps_eval_H {fuel : Nat} {M : List (Coordinate α β)}
    {c0 : Coordinate α β} {rest : List (Coordinate α β)}
    (hM : M = c0 :: rest) (hlen : ¬M.length ≤ 1) :
    nav.findAlignmentGaps fuel ⟨ShipDirection.HORIZONTAL, M⟩ =
      (findIndexGaps fuel
        (orderedDedup ((sortWith nav.createCoordinatesSorter M).map
          (fun c => c.columnIndex)))
        nav.findNextColumnIndex).map (fun columnIndex => ⟨columnIndex, c0.rowIndex⟩) := by
  subst hM
  rw [CoordinateNavigator.findAlignmentGaps]
  rw [if_neg hlen]
  rfl

theorem findAlignmentGaps_eval_V {fuel : Nat} {M : List (Coordinate α β)}
    {c0 : Coordinate α β} {rest : List (Coordinate α β)}
    (hM : M = c0 :: rest) (hlen : ¬M.length ≤ 1) :
    nav.findAlignmentGaps fuel ⟨ShipDirection.VERTICAL, M⟩ =
      (findIndexGaps fuel
        (orderedDedup ((sortWith nav.createCoordinatesSorter M).map
          (fun c => c.rowIndex)))
        nav.findNextRowIndex).map (fun rowIndex => ⟨c0.columnIndex, rowIndex⟩) := by
  subst hM
  rw [CoordinateNavigator.findAlignmentGaps]
  rw [if_neg hlen]
  rfl

/-- C7: for every alignment `A` returned by `findAlignments` on a well-formed
grid whose input coordinates lie on the grid, merging the coordinates returned
by `findAlignmentGaps(A)` with `A`'s original coordinates yields a contiguous
run along `A`'s axis: applying `findAlignmentGaps` to the merged alignment
returns the empty list. -/
theorem findAlignmentGaps_merge_closed
    (hwf : wellFormedGrid nav cols rows = true)
    {fuel : Nat} {coords : List (Coordinate α β)} {maxDistance : Nat}
    {A : CoordinateAlignment α β}
    (hgrid : ∀ c ∈ coords, c.columnIndex ∈ cols ∧ c.rowIndex ∈ rows)
    (hA : A ∈ nav.findAlignments fuel coords maxDistance)
    (hfuel : cols.length + rows.length + 2 ≤ fuel) :
    nav.findAlignmentGaps fuel
      ⟨A.direction, A.coordinates ++ nav.findAlignmentGaps fuel A⟩ = [] := by
  obtain ⟨hnc, hpc, hnr, hpr, hsc, hsr, _, _⟩ := wellFormedGrid_spec hwf
  have hndc : cols.Nodup := sorterConsistent_nodup hsc
  have hndr : rows.Nodup := sorterConsistent_nodup hsr
  obtain ⟨hlen0, i, hi, d, hdir0, hlast, heq0⟩ :=
    mem_findAlignmentsBefore_spec (mem_findAlignments_sub hA)
  obtain ⟨Adir, Acoords⟩ := A
  have hdir : Adir = d := hdir0
  subst Adir
  have hlen : 1 < Acoords.length := hlen0
  have heq : Acoords =
      sortWith nav.createCoordinatesSorter
        (((sortWith nav.createCoordinatesSorter coords).drop (i + 1)).filter
          (fun c =>
            decide (findCoordinatesAlignmentDirection c
                ((sortWith nav.createCoordinatesSorter coords)[i]) = some d) &&
            CoordinateNavigator.filterInvalidAlignmentCandidate maxDistance
              (nav.mapCandidateToPotentialAlignment fuel c
                ((sortWith nav.createCoordinatesSorter coords)[i]))) ++
          [(sortWith nav.createCoordinatesSorter coords)[i]]) := heq0
  set S := sortWith nav.createCoordinatesSorter coords with hSdef
  have hSgrid : ∀ c ∈ S, c.columnIndex ∈ cols ∧ c.rowIndex ∈ rows := by
    intro c hc
    exact hgrid c (mem_sortWith.mp hc)
  have hrefS : S[i] ∈ S := List.getElem_mem _
  have hmemA : ∀ c ∈ Acoords, c = S[i] ∨
      (c ∈ S.drop (i + 1) ∧ findCoordinatesAlignmentDirection c S[i] = some d) := by
    intro c hc
    rw [heq, mem_sortWith, List.mem_append] at hc
    rcases hc with hc | hc
    · rw [List.mem_filter] at hc
      obtain ⟨hcd, hcp⟩ := hc
      rw [Bool.and_eq_true, decide_eq_true_eq] at hcp
      exact Or.inr ⟨hcd, hcp.1⟩
    · left
      simpa using hc
  have hAgrid : ∀ c ∈ Acoords, c.columnIndex ∈ cols ∧ c.rowIndex ∈ rows := by
    intro c hc
    rcases hmemA c hc with rfl | ⟨hcd, _⟩
    · exact hSgrid _ hrefS
    · exact hSgrid _ (List.Sublist.mem hcd (List.drop_sublist _ _))
  have hArefmem : S[i] ∈ Acoords := by
    rw [heq, mem_sortWith, List.mem_append]
    right
    simp
  obtain ⟨c0, rest, hc0⟩ : ∃ c0 rest, Acoords = c0 :: rest := by
    rcases hAC : Acoords with _ | ⟨c0, rest⟩
    · rw [hAC] at hlen
      simp at hlen
    · exact ⟨c0, rest, rfl⟩
  have hc0mem : c0 ∈ Acoords := by
    rw [hc0]
    simp
  have hlenF : Acoords.length =
      ((S.drop (i + 1)).filter
        (fun c =>
          decide (findCoordinatesAlignmentDirection c S[i] = some d) &&
          CoordinateNavigator.filterInvalidAlignmentCandidate maxDistance
            (nav.mapCandidateToPotentialAlignment fuel c S[i]))).length + 1 := by
    rw [heq, length_sortWith, List.length_append]
    rfl
  have hFne : ((S.drop (i + 1)).filter
      (fun c =>
        decide (findCoordinatesAlignmentDirection c S[i] = some d) &&
        CoordinateNavigator.filterInvalidAlignmentCandidate maxDistance
          (nav.mapCandidateToPotentialAlignment fuel c S[i]))) ≠ [] := by
    intro hnil
    rw [hnil] at hlenF
    simp at hlenF
    omega
  obtain ⟨c1, hc1F⟩ := List.exists_mem_of_ne_nil _ hFne
  have hc1A : c1 ∈ Acoords := by
    rw [heq, mem_sortWith, List.mem_append]
    left
    exact hc1F
  rw [List.mem_filter] at hc1F
  obtain ⟨hc1drop, hc1p⟩ := hc1F
  rw [Bool.and_eq_true, decide_eq_true_eq] at hc1p
  have hc1dir : findCoordinatesAlignmentDirection c1 S[i] = some d := hc1p.1
  have hc1ne : c1 ≠ S[i] := by
    intro hcontra
    rw [hcontra] at hc1drop
    obtain ⟨k, hk, hke⟩ := List.mem_iff_getElem.mp hc1drop
    rw [List.getElem_drop] at hke
    have hkS : i + 1 + k < S.length := by
      have := hk
      rw [List.length_drop] at this
      omega
    exact hlast (i + 1 + k) hkS (by omega) hke
  have hrefrow : (S[i]).rowIndex ∈ rows := (hSgrid _ hrefS).2
  have hrefcol : (S[i]).columnIndex ∈ cols := (hSgrid _ hrefS).1
  cases d with
  | HORIZONTAL =>
    have hrowAll : ∀ c ∈ Acoords, c.rowIndex = (S[i]).rowIndex := by
      intro c hc
      rcases hmemA c hc with rfl | ⟨_, hfd⟩
      · rfl
      · exact (findDir_horizontal hfd).1
    have hc1col : c1.columnIndex ≠ (S[i]).columnIndex := (findDir_horizontal hc1dir).2
    have hordH : ∀ (M : List (Coordinate α β)),
        (∀ c ∈ M, c.columnIndex ∈ cols ∧ c.rowIndex = (S[i]).rowIndex) →
        ∀ a ∈ M, ∀ b ∈ M,
          (nav.createCoordinatesSorter a b ≤ 0 ↔
            cols.indexOf a.columnIndex ≤ cols.indexOf b.columnIndex) := by
      intro M hM a ha b hb
      exact coordSorter_le_iff_col hsc hsr (hM a ha).1
        (by rw [(hM a ha).2]; exact hrefrow) (hM b hb).1
        (by rw [(hM b hb).2]; exact hrefrow)
        (by rw [(hM a ha).2, (hM b hb).2])
    have hnotle : ¬Acoords.length ≤ 1 := by omega
    have hcall1 := @findAlignmentGaps_eval_H α β _ _ nav fuel Acoords c0 rest hc0 hnotle
    obtain ⟨hSMnd, hSMpair, hSMset⟩ :=
      dedupSorted_spec (hordH Acoords (fun c hc => ⟨(hAgrid c hc).1, hrowAll c hc⟩))
    have hSMsub : ∀ x ∈ orderedDedup ((sortWith nav.createCoordinatesSorter Acoords).map
        (fun c => c.columnIndex)), x ∈ cols := by
      intro x hx
      obtain ⟨c, hc, rfl⟩ := (hSMset x).mp hx
      exact (hAgrid c hc).1
    have hSMlen : 2 ≤ (orderedDedup ((sortWith nav.createCoordinatesSorter Acoords).map
        (fun c => c.columnIndex))).length :=
      two_mem_length_le ((hSMset _).mpr ⟨c1, hc1A, rfl⟩)
        ((hSMset _).mpr ⟨S[i], hArefmem, rfl⟩) hc1col
    have hM'facts : ∀ c ∈ Acoords ++
        nav.findAlignmentGaps fuel ⟨.HORIZONTAL, Acoords⟩,
        c.columnIndex ∈ cols ∧ c.rowIndex = (S[i]).rowIndex := by
      intro c hc
      rcases List.mem_append.mp hc with hc | hc
      · exact ⟨(hAgrid c hc).1, hrowAll c hc⟩
      · rw [hcall1, List.mem_map] at hc
        obtain ⟨ci, hci, rfl⟩ := hc
        exact ⟨(findIndexGaps_mem hnc hSMsub ci hci).1, hrowAll c0 hc0mem⟩
    obtain ⟨hSM'nd, hSM'pair, hSM'set⟩ := dedupSorted_spec (hordH _ hM'facts)
    have hset' : ∀ x,
        x ∈ orderedDedup ((sortWith nav.createCoordinatesSorter
          (Acoords ++ nav.findAlignmentGaps fuel ⟨.HORIZONTAL, Acoords⟩)).map
            (fun c => c.columnIndex)) ↔
        (x ∈ orderedDedup ((sortWith nav.createCoordinatesSorter Acoords).map
            (fun c => c.columnIndex)) ∨
          x ∈ findIndexGaps fuel
            (orderedDedup ((sortWith nav.createCoordinatesSorter Acoords).map
              (fun c => c.columnIndex))) nav.findNextColumnIndex) := by
      intro x
      rw [hSM'set x]
      constructor
      · rintro ⟨c, hc, rfl⟩
        rcases List.mem_append.mp hc with hc | hc
        · exact Or.inl ((hSMset _).mpr ⟨c, hc, rfl⟩)
        · right
          rw [hcall1, List.mem_map] at hc
          obtain ⟨ci, hci, rfl⟩ := hc
          exact hci
      · rintro (hx | hx)
        · obtain ⟨c, hc, rfl⟩ := (hSMset x).mp hx
          exact ⟨c, List.mem_append_left _ hc, rfl⟩
        · refine ⟨⟨x, c0.rowIndex⟩, List.mem_append_right _ ?_, rfl⟩
          rw [hcall1, List.mem_map]
          exact ⟨x, hx, rfl⟩
    have hM'c0 : Acoords ++ nav.findAlignmentGaps fuel ⟨.HORIZONTAL, Acoords⟩ =
        c0 :: (rest ++ nav.findAlignmentGaps fuel ⟨.HORIZONTAL, Acoords⟩) := by
      rw [hc0]
      rfl
    have hM'len : ¬(Acoords ++
        nav.findAlignmentGaps fuel ⟨.HORIZONTAL, Acoords⟩).length ≤ 1 := by
      rw [List.length_append]
      omega
    have hcall2 := @findAlignmentGaps_eval_H α β _ _ nav fuel
      (Acoords ++ nav.findAlignmentGaps fuel ⟨.HORIZONTAL, Acoords⟩) c0
      (rest ++ nav.findAlignmentGaps fuel ⟨.HORIZONTAL, Acoords⟩) hM'c0 hM'len
    rw [hcall2]
    rw [findIndexGaps_merge_core hnc hndc (show cols.length ≤ fuel by omega)
      hSMsub hSMnd hSMpair hSMlen hSM'nd hSM'pair hset']
    rfl
  | VERTICAL =>
    have hcolAll : ∀ c ∈ Acoords, c.columnIndex = (S[i]).columnIndex := by
      intro c hc
      rcases hmemA c hc with rfl | ⟨_, hfd⟩
      · rfl
      · exact findDir_vertical hfd
    have hc1row : c1.rowIndex ≠ (S[i]).rowIndex := by
      intro hcontra
      apply hc1ne
      have hcol := hcolAll c1 hc1A
      cases c1
      cases hS : S[i]
      simp_all
    have hordV : ∀ (M : List (Coordinate α β)),
        (∀ c ∈ M, c.rowIndex ∈ rows ∧ c.columnIndex = (S[i]).columnIndex) →
        ∀ a ∈ M, ∀ b ∈ M,
          (nav.createCoordinatesSorter a b ≤ 0 ↔
            rows.indexOf a.rowIndex ≤ rows.indexOf b.rowIndex) := by
      intro M hM a ha b hb
      exact coordSorter_le_iff_row hsc hsr
        (by rw [(hM a ha).2]; exact hrefcol) (hM a ha).1
        (by rw [(hM b hb).2]; exact hrefcol) (hM b hb).1
        (by rw [(hM a ha).2, (hM b hb).2])
    have hnotle : ¬Acoords.length ≤ 1 := by omega
    have hcall1 := @findAlignmentGaps_eval_V α β _ _ nav fuel Acoords c0 rest hc0 hnotle
    obtain ⟨hSMnd, hSMpair, hSMset⟩ :=
      dedupSorted_spec (hordV Acoords (fun c hc => ⟨(hAgrid c hc).2, hcolAll c hc⟩))
    have hSMsub : ∀ x ∈ orderedDedup ((sortWith nav.createCoordinatesSorter Acoords).map
        (fun c => c.rowIndex)), x ∈ rows := by
      intro x hx
      obtain ⟨c, hc, rfl⟩ := (hSMset x).mp hx
      exact (hAgrid c hc).2
    have hSMlen : 2 ≤ (orderedDedup ((sortWith nav.createCoordinatesSorter Acoords).map
        (fun c => c.rowIndex))).length :=
      two_mem_length_le ((hSMset _).mpr ⟨c1, hc1A, rfl⟩)
        ((hSMset _).mpr ⟨S[i], hArefmem, rfl⟩) hc1row
    have hM'facts : ∀ c ∈ Acoords ++
        nav.findAlignmentGaps fuel ⟨.VERTICAL, Acoords⟩,
        c.rowIndex ∈ rows ∧ c.columnIndex = (S[i]).columnIndex := by
      intro c hc
      rcases List.mem_append.mp hc with hc | hc
      · exact ⟨(hAgrid c hc).2, hcolAll c hc⟩
      · rw [hcall1, List.mem_map] at hc
        obtain ⟨ri, hri, rfl⟩ := hc
        exact ⟨(findIndexGaps_mem hnr hSMsub ri hri).1, hcolAll c0 hc0mem⟩
    obtain ⟨hSM'nd, hSM'pair, hSM'set⟩ := dedupSorted_spec (hordV _ hM'facts)
    have hset' : ∀ x,
        x ∈ orderedDedup ((sortWith nav.createCoordinatesSorter
          (Acoords ++ nav.findAlignmentGaps fuel ⟨.VERTICAL, Acoords⟩)).map
            (fun c => c.rowIndex)) ↔
        (x ∈ orderedDedup ((sortWith nav.createCoordinatesSorter Acoords).map
            (fun c => c.rowIndex)) ∨
          x ∈ findIndexGaps fuel
            (orderedDedup ((sortWith nav.createCoordinatesSorter Acoords).map
              (fun c => c.rowIndex))) nav.findNextRowIndex) := by
      intro x
      rw [hSM'set x]
      constructor
      · rintro ⟨c, hc, rfl⟩
        rcases List.mem_append.mp hc with hc | hc
        · exact Or.inl ((hSMset _).mpr ⟨c, hc, rfl⟩)
        · right
          rw [hcall1, List.mem_map] at hc
          obtain ⟨ri, hri, rfl⟩ := hc
          exact hri
      · rintro (hx | hx)
        · obtain ⟨c, hc, rfl⟩ := (hSMset x).mp hx
          exact ⟨c, List.mem_append_left _ hc, rfl⟩
        · refine ⟨⟨c0.columnIndex, x⟩, List.mem_append_right _ ?_, rfl⟩
          rw [hcall1, List.mem_map]
          exact ⟨x, hx, rfl⟩
    have hM'c0 : Acoords ++ nav.findAlignmentGaps fuel ⟨.VERTICAL, Acoords⟩ =
        c0 :: (rest ++ nav.findAlignmentGaps fuel ⟨.VERTICAL, Acoords⟩) := by
      rw [hc0]
      rfl
    have hM'len : ¬(Acoords ++
        nav.findAlignmentGaps fuel ⟨.VERTICAL, Acoords⟩).length ≤ 1 := by
      rw [List.length_append]
      omega
    have hcall2 := @findAlignmentGaps_eval_V α β _ _ nav fuel
      (Acoords ++ nav.findAlignmentGaps fuel ⟨.VERTICAL, Acoords⟩) c0
      (rest ++ nav.findAlignmentGaps fuel ⟨.VERTICAL, Acoords⟩) hM'c0 hM'len
    rw [hcall2]
    rw [findIndexGaps_merge_core hnr hndr (show rows.length ≤ fuel by omega)
      hSMsub hSMnd hSMpair hSMlen hSM'nd hSM'pair hset']
    rfl

/-- Witness for C7: the vertical alignment `[A1, A2, A3, A5]` found on the
spec's example input has its gap `A4` filled and no gaps remain. -/
theorem findAlignmentGaps_merge_closed_witness :
    nav5.findAlignmentGaps 12
      ⟨ShipDirection.VERTICAL,
        [⟨0, 1⟩, ⟨0, 2⟩, ⟨0, 3⟩, ⟨0, 5⟩] ++
          nav5.findAlignmentGaps 12
            ⟨ShipDirection.VERTICAL, [⟨0, 1⟩, ⟨0, 2⟩, ⟨0, 3⟩, ⟨0, 5⟩]⟩⟩ = [] :=
  @findAlignmentGaps_merge_closed Nat Nat _ _ nav5 cols5 rows5 (by decide) 12
    [⟨0, 1⟩, ⟨0, 2⟩, ⟨0, 3⟩, ⟨0, 5⟩, ⟨4, 1⟩] 4
    ⟨ShipDirection.VERTICAL, [⟨0, 1⟩, ⟨0, 2⟩, ⟨0, 3⟩, ⟨0, 5⟩]⟩
    (by decide) (by decide) (by decide)

end GapsClaim

/-! ## Diagonal traversal lemmas -/

section TraversalLemmas

variable {α : Type u} {β : Type v} [DecidableEq α] [DecidableEq β]

theorem mapWithState_nil {σ : Type w} {a : Type x} {b : Type y} (f : σ → a → b × σ)
    (st : σ) : mapWithState f st [] = [] := rfl

theorem mapWithState_cons {σ : Type w} {a : Type x} {b : Type y} (f : σ → a → b × σ)
    (st : σ) (x : a) (t : List a) :
    mapWithState f st (x :: t) = (f st x).1 :: mapWithState f (f st x).2 t := rfl

theorem createIndices_eq {γ : Type w} (fuel : Nat) (x : γ) (next : γ → Option γ) :
    createIndices fuel x next = x ::
      (match fuel with
        | 0 => []
        | f + 1 =>
          match next x with
          | none => []
          | some y => createIndices f y next) := by
  cases fuel <;> rfl

theorem mapWithState_length {σ : Type w} {a : Type x} {b : Type y} (f : σ → a → b × σ) :
    ∀ (st : σ) (cs : List a), (mapWithState f st cs).length = cs.length := by
  intro st cs
  induction cs generalizing st with
  | nil => rfl
  | cons c cs ih =>
    rw [mapWithState_cons, List.length_cons, List.length_cons, ih]

theorem mapWithState_loopable_getElem {LR : List β} (hnd : LR.Nodup)
    (hm : 0 < LR.length) {ini : β} :
    ∀ (cs : List α) (t : Nat), t < LR.length →
    ∀ j, (hj : j < cs.length) →
      (mapWithState
        (fun li startingColumnIndex =>
          let r := LoopableIndices.getNextIndex li
          ((⟨startingColumnIndex, r.1⟩ : Coordinate α β), r.2))
        ⟨LR, ini, some t⟩ cs).get ⟨j, by rw [mapWithState_length]; exact hj⟩ =
      ⟨cs[j], LR.get ⟨(t + 1 + j) % LR.length, Nat.mod_lt _ hm⟩⟩ := by
  intro cs
  induction cs with
  | nil =>
    intro t ht j hj
    simp at hj
  | cons c cs ih =>
    intro t ht j hj
    simp only [List.get_eq_getElem]
    have hnew : (if t + 1 < LR.length then t + 1 else 0) = (t + 1) % LR.length := by
      by_cases h : t + 1 < LR.length
      · rw [if_pos h, Nat.mod_eq_of_lt h]
      · have : t + 1 = LR.length := by omega
        rw [if_neg h, this, Nat.mod_self]
    have hstep : LoopableIndices.getNextIndex (⟨LR, ini, some t⟩ : LoopableIndices β) =
        (LR.get ⟨(t + 1) % LR.length, Nat.mod_lt _ hm⟩,
          ⟨LR, ini, some ((t + 1) % LR.length)⟩) := by
      rw [LoopableIndices.getNextIndex]
      simp only [hnew]
      have hget : LR.getD ((t + 1) % LR.length) ini =
          LR.get ⟨(t + 1) % LR.length, Nat.mod_lt _ hm⟩ := by
        rw [List.getD_eq_getElem?_getD,
          List.getElem?_eq_getElem (Nat.mod_lt _ hm)]
        rfl
      rw [hget]
    cases j with
    | zero =>
      simp only [mapWithState_cons, hstep]
      rfl
    | succ k =>
      simp only [mapWithState_cons, hstep]
      have hk : k < cs.length := by
        simpa using Nat.lt_of_succ_lt_succ hj
      have hih := ih ((t + 1) % LR.length) (Nat.mod_lt _ hm) k hk
      simp only [List.get_eq_getElem] at hih
      rw [List.getElem_cons_succ]
      rw [hih]
      have hidx : ((t + 1) % LR.length + 1 + k) % LR.length =
          (t + 1 + (k + 1)) % LR.length := by
        have ha : (t + 1) % LR.length + 1 + k = (t + 1) % LR.length + (1 + k) := by
          omega
        rw [ha, Nat.mod_add_mod]
        congr 1
        omega
      have hq : LR[((t + 1) % LR.length + 1 + k) % LR.length]? =
          LR[(t + 1 + (k + 1)) % LR.length]? := by
        rw [hidx]
      rw [List.getElem?_eq_getElem (Nat.mod_lt _ hm),
        List.getElem?_eq_getElem (Nat.mod_lt _ hm)] at hq
      have hq' := Option.some.inj hq
      rw [hq']
      rfl

theorem mapWithState_loopable_getElem_start {LR : List β} (hnd : LR.Nodup)
    {s : Nat} (hs : s < LR.length) (cs : List α) :
    ∀ j, (hj : j < cs.length) →
      (mapWithState
        (fun li startingColumnIndex =>
          let r := LoopableIndices.getNextIndex li
          ((⟨startingColumnIndex, r.1⟩ : Coordinate α β), r.2))
        ⟨LR, LR[s], none⟩ cs).get ⟨j, by rw [mapWithState_length]; exact hj⟩ =
      ⟨cs[j], LR.get ⟨(s + j) % LR.length, Nat.mod_lt _ (by omega)⟩⟩ := by
  intro j hj
  simp only [List.get_eq_getElem]
  have hm : 0 < LR.length := by omega
  rcases cs with _ | ⟨c, cs'⟩
  · simp at hj
  · have hstep : LoopableIndices.getNextIndex (⟨LR, LR[s], none⟩ : LoopableIndices β) =
        (LR[s], ⟨LR, LR[s], some s⟩) := by
      rw [LoopableIndices.getNextIndex]
      rw [List.indexOf_getElem hnd]
    cases j with
    | zero =>
      simp only [mapWithState_cons, hstep]
      have hzz : (s + 0) % LR.length = s := by
        rw [Nat.add_zero, Nat.mod_eq_of_lt hs]
      have hq : LR[(s + 0) % LR.length]? = LR[s]? := by rw [hzz]
      rw [List.getElem?_eq_getElem (Nat.mod_lt _ hm),
        List.getElem?_eq_getElem hs] at hq
      have hq' := Option.some.inj hq
      rw [List.getElem_cons_zero]
      rw [← hq']
      rfl
    | succ k =>
      simp only [mapWithState_cons, hstep]
      have hk : k < cs'.length := by
        simpa using Nat.lt_of_succ_lt_succ hj
      have hih := @mapWithState_loopable_getElem α β _ _ LR hnd hm (LR.get ⟨s, hs⟩) cs' s hs k hk
      simp only [List.get_eq_getElem] at hih
      have hidx : (s + 1 + k) % LR.length = (s + (k + 1)) % LR.length := by
        congr 1
        omega
      have hq : LR[(s + 1 + k) % LR.length]? = LR[(s + (k + 1)) % LR.length]? := by
        rw [hidx]
      rw [List.getElem?_eq_getElem (Nat.mod_lt _ hm),
        List.getElem?_eq_getElem (Nat.mod_lt _ hm)] at hq
      have hq' := Option.some.inj hq
      exact hih.trans (by rw [hq']; rfl)

theorem createIndices_step_mem {next : β → Option β} {L : List β}
    (hch : chainNext next L = true) {minSize : Nat} (hmin : 1 ≤ minSize) :
    ∀ (k q fuel : Nat), (hq : q < L.length) → (hp : q + k * minSize < L.length) →
      k ≤ fuel →
      L[q + k * minSize] ∈
        createIndices fuel L[q] (fun r => findNextIndexByStep next r minSize) := by
  intro k
  induction k with
  | zero =>
    intro q fuel hq hp hk
    have hzz : q + 0 * minSize = q := by omega
    have hgoal : L.get ⟨q + 0 * minSize, hp⟩ = L.get ⟨q, hq⟩ := by
      have hqq : L[q + 0 * minSize]? = L[q]? := by rw [hzz]
      rw [List.getElem?_eq_getElem hp, List.getElem?_eq_getElem hq] at hqq
      exact Option.some.inj hqq
    show L.get ⟨q + 0 * minSize, hp⟩ ∈
      createIndices fuel (L.get ⟨q, hq⟩) (fun r => findNextIndexByStep next r minSize)
    rw [hgoal, createIndices_eq]
    exact List.mem_cons_self _ _
  | succ kk ih =>
    intro q fuel hq hp hk
    obtain ⟨f, rfl⟩ : ∃ f, fuel = f + 1 := ⟨fuel - 1, by omega⟩
    rw [createIndices_eq]
    have hqm : q + minSize < L.length := by
      have : minSize ≤ (kk + 1) * minSize := by
        calc minSize = 1 * minSize := by omega
        _ ≤ (kk + 1) * minSize := Nat.mul_le_mul_right _ (by omega)
      omega
    have hstep : findNextIndexByStep next L[q] minSize =
        some (L.get ⟨q + minSize, hqm⟩) := by
      rw [findNextIndexByStep_chain hch minSize q hq, dif_pos hqm]
    simp only [hstep]
    right
    have hidx : q + (kk + 1) * minSize = (q + minSize) + kk * minSize := by ring
    have hp' : (q + minSize) + kk * minSize < L.length := by omega
    show L.get ⟨q + (kk + 1) * minSize, hp⟩ ∈
      createIndices f (L.get ⟨q + minSize, hqm⟩)
        (fun r => findNextIndexByStep next r minSize)
    have hgoal : L.get ⟨q + (kk + 1) * minSize, hp⟩ =
        L.get ⟨(q + minSize) + kk * minSize, hp'⟩ := by
      have hqq : L[q + (kk + 1) * minSize]? = L[(q + minSize) + kk * minSize]? := by
        rw [hidx]
      rw [List.getElem?_eq_getElem hp, List.getElem?_eq_getElem hp'] at hqq
      exact Option.some.inj hqq
    rw [hgoal]
    exact ih (q + minSize) f hqm hp' (by omega)

end TraversalLemmas

/-! ## Grid coverage of the diagonal traversal -/

section TraversalEval

variable {α : Type u} {β : Type v} [DecidableEq α] [DecidableEq β]
variable {nav : CoordinateNavigator α β} {cols : List α} {rows : List β}

theorem range_filterMap_getElem {γ : Type w} (n : Nat) (L : List γ) :
    (List.range n).filterMap (fun d => L[d]?) = L.take n := by
  induction n with
  | zero => simp
  | succ k ih =>
    rw [List.range_succ, List.filterMap_append, ih, List.take_succ]
    cases h : L[k]? <;> simp [h]

theorem findStartingCoordinates_eval (h : wellFormedGrid nav cols rows = true)
    {fuel : Nat} (hfuel : cols.length + rows.length ≤ fuel) (minSize : Nat) :
    nav.findStartingCoordinates fuel minSize =
      (rows.take minSize).map
        (fun r => (⟨cols.get ⟨0, wf_cols_pos h⟩, r⟩ : Coordinate α β)) := by
  obtain ⟨hnc, hpc, hnr, hpr, hsc, hsr, href1, href2⟩ := wellFormedGrid_spec h
  have hc0 : 0 < cols.length := wf_cols_pos h
  have hr0 : 0 < rows.length := wf_rows_pos h
  have hndr : rows.Nodup := sorterConsistent_nodup hsr
  have horigin : nav.getGridOrigin fuel = ⟨cols[0], rows[0]⟩ :=
    getGridOrigin_eval h hfuel hc0 hr0
  simp only [CoordinateNavigator.findStartingCoordinates, horigin]
  have hmapeq : (List.range minSize).map
      (fun d => findNextIndexByStep nav.findNextRowIndex rows[0] d) =
      (List.range minSize).map (fun (d : Nat) => (rows[d]? : Option β)) := by
    refine List.map_congr_left ?_
    intro d hd
    have hch := findNextIndexByStep_chain hnr d 0 hr0
    rw [hch]
    simp only [Nat.zero_add]
    by_cases hdl : d < rows.length
    · rw [dif_pos hdl, List.getElem?_eq_getElem hdl]
      rfl
    · rw [dif_neg hdl, List.getElem?_eq_none]
      omega
  rw [hmapeq]
  have hfm : ((List.range minSize).map (fun (d : Nat) => (rows[d]? : Option β))).filterMap
      id = rows.take minSize := by
    rw [List.filterMap_map]
    have hco : (id ∘ fun (d : Nat) => (rows[d]? : Option β)) =
        fun (d : Nat) => (rows[d]? : Option β) := rfl
    rw [hco, range_filterMap_getElem]
  rw [hfm]
  apply sortWith_eq_of_pairwise
  rw [List.pairwise_iff_getElem]
  intro i j hi hj hij
  have hi' : i < (rows.take minSize).length := by simpa using hi
  have hj' : j < (rows.take minSize).length := by simpa using hj
  have hir : i < rows.length := by rw [List.length_take] at hi'; omega
  have hjr : j < rows.length := by rw [List.length_take] at hj'; omega
  simp only [List.getElem_map, List.getElem_take]
  refine (coordSorter_le_iff_row hsc hsr ?_ ?_ ?_ ?_ ?_).mpr ?_
  · exact List.getElem_mem _
  · exact List.getElem_mem _
  · exact List.getElem_mem _
  · exact List.getElem_mem _
  · exact rfl
  · have e1 : rows.indexOf (rows.get ⟨i, hir⟩) = i :=
      List.indexOf_getElem hndr i hir
    have e2 : rows.indexOf (rows.get ⟨j, hjr⟩) = j :=
      List.indexOf_getElem hndr j hjr
    show rows.indexOf (rows.get ⟨i, hir⟩) ≤ rows.indexOf (rows.get ⟨j, hjr⟩)
    rw [e1, e2]
    omega

theorem traverseGridDiagonallyInDirection_eval
    (h : wellFormedGrid nav cols rows = true)
    {fuel : Nat} (hfuel : cols.length + rows.length ≤ fuel) (minSize : Nat) :
    nav.traverseGridDiagonallyInDirection fuel minSize =
      (nav.findStartingCoordinates fuel minSize).map
        (fun sc => traverseGridDiagonally fuel cols minSize
          (nav.findStartingCoordinates fuel minSize) sc nav.findNextRowIndex) := by
  obtain ⟨hnc, hpc, hnr, hpr, hsc, hsr, href1, href2⟩ := wellFormedGrid_spec h
  have hc0 : 0 < cols.length := wf_cols_pos h
  have hr0 : 0 < rows.length := wf_rows_pos h
  have horigin : nav.getGridOrigin fuel = ⟨cols[0], rows[0]⟩ :=
    getGridOrigin_eval h hfuel hc0 hr0
  simp only [CoordinateNavigator.traverseGridDiagonallyInDirection, horigin]
  have hcols : createIndices fuel cols[0] nav.findNextColumnIndex =
      cols := by
    have h0 := createIndices_chain hnc 0 hc0 fuel (by omega)
    rw [List.drop_zero] at h0
    exact h0
  rw [hcols]

theorem diag_mod_key (m p j : Nat) (hm : 0 < m) :
    ((p % m + m - j % m) % m + j) % m = p % m := by
  rw [Nat.mod_add_mod]
  have hblt : j % m < m := Nat.mod_lt _ hm
  have hdm : m * (j / m) + j % m = j := Nat.div_add_mod j m
  have harith : ∀ t, t + j % m = j →
      p % m + m - j % m + j = p % m + m + t := by
    intro t ht
    omega
  rw [harith (m * (j / m)) hdm]
  rw [Nat.add_mul_mod_self_left]
  rw [Nat.add_mod_right]
  exact Nat.mod_mod_of_dvd p dvd_rfl

theorem diag_decomp (minSize len p : Nat) (hp : p < len) :
    p % min minSize len + p / min minSize len * minSize = p := by
  by_cases hms : minSize ≤ len
  · rw [Nat.min_eq_left hms]
    exact Nat.mod_add_div' p minSize
  · rw [Nat.min_eq_right (by omega)]
    rw [Nat.mod_eq_of_lt hp, Nat.div_eq_of_lt hp]
    omega

theorem traverseGridDiagonally_mem {next : β → Option β}
    (hch : chainNext next rows = true) (hnd : rows.Nodup)
    (cols' : List α) {minSize : Nat} (hmin : 1 ≤ minSize)
    {fuel : Nat} (hfr : rows.length ≤ fuel)
    {SC : List (Coordinate α β)}
    (hSCrows : SC.map (fun c => c.rowIndex) = rows.take minSize)
    {s : Nat} (hs : s < min minSize rows.length)
    {sc : Coordinate α β}
    (hscrow : sc.rowIndex = (rows.take minSize).get
      ⟨s, by rw [List.length_take]; exact hs⟩)
    {j p : Nat} (hj : j < cols'.length) (hp : p < rows.length)
    (hkey : (s + j) % min minSize rows.length = p % min minSize rows.length) :
    (⟨cols'.get ⟨j, hj⟩, rows.get ⟨p, hp⟩⟩ : Coordinate α β) ∈
      traverseGridDiagonally fuel cols' minSize SC sc next := by
  have hr0 : 0 < rows.length := by omega
  have hnd' : (rows.take minSize).Nodup := (List.take_sublist _ _).nodup hnd
  have hs' : s < (rows.take minSize).length := by rw [List.length_take]; exact hs
  have hTlen : (rows.take minSize).length = min minSize rows.length :=
    List.length_take _ _
  simp only [traverseGridDiagonally]
  rw [hSCrows, hscrow]
  have hTC := mapWithState_loopable_getElem_start hnd' hs' cols' j hj
  rw [List.mem_flatMap]
  have hb : (s + j) % (rows.take minSize).length < (rows.take minSize).length :=
    Nat.mod_lt _ (by omega)
  refine ⟨⟨cols'.get ⟨j, hj⟩,
    (rows.take minSize).get ⟨(s + j) % (rows.take minSize).length, hb⟩⟩, ?_, ?_⟩
  · refine List.mem_iff_getElem.mpr
      ⟨j, by rw [mapWithState_length]; exact hj, ?_⟩
    exact hTC
  · show (⟨cols'.get ⟨j, hj⟩, rows.get ⟨p, hp⟩⟩ : Coordinate α β) ∈
      (createIndices fuel
        ((rows.take minSize).get ⟨(s + j) % (rows.take minSize).length, hb⟩)
        (fun initialValue => findNextIndexByStep next initialValue minSize)).map
        (fun rowIndex => (⟨cols'.get ⟨j, hj⟩, rowIndex⟩ : Coordinate α β))
    have hql : p % min minSize rows.length < rows.length := by
      have := Nat.mod_le p (min minSize rows.length)
      omega
    have hdecomp : p % min minSize rows.length +
        p / min minSize rows.length * minSize = p :=
      diag_decomp minSize rows.length p hp
    have hbridge : (rows.take minSize).get
        ⟨(s + j) % (rows.take minSize).length, hb⟩ =
        rows.get ⟨p % min minSize rows.length, hql⟩ := by
      have hx : (s + j) % (rows.take minSize).length < rows.length := by
        rw [hTlen]
        omega
      have h1 : (rows.take minSize).get
          ⟨(s + j) % (rows.take minSize).length, hb⟩ =
          rows.get ⟨(s + j) % (rows.take minSize).length, hx⟩ :=
        List.getElem_take rows
      rw [h1]
      have hxq : (s + j) % (rows.take minSize).length =
          p % min minSize rows.length := by
        rw [hTlen]
        exact hkey
      have hq2 : rows[(s + j) % (rows.take minSize).length]? =
          rows[p % min minSize rows.length]? := by rw [hxq]
      rw [List.getElem?_eq_getElem hx, List.getElem?_eq_getElem hql] at hq2
      exact Option.some.inj hq2
    rw [hbridge]
    refine List.mem_map.mpr ⟨rows.get ⟨p, hp⟩, ?_, rfl⟩
    have hlt2 : p % min minSize rows.length +
        p / min minSize rows.length * minSize < rows.length := by
      rw [hdecomp]
      exact hp
    have hmem := createIndices_step_mem hch hmin (p / min minSize rows.length)
      (p % min minSize rows.length) fuel hql hlt2
      (le_trans (Nat.div_le_self _ _) (by omega))
    have hq3 : rows[p % min minSize rows.length +
        p / min minSize rows.length * minSize]? = rows[p]? := by rw [hdecomp]
    rw [List.getElem?_eq_getElem hlt2, List.getElem?_eq_getElem hp] at hq3
    have hq4 := Option.some.inj hq3
    rw [hq4] at hmem
    exact hmem

theorem traverseGrid_covers_cell (h : wellFormedGrid nav cols rows = true)
    {fuel minSize : Nat} (hmin : 1 ≤ minSize)
    (hfuel : cols.length + rows.length ≤ fuel)
    {j p : Nat} (hj : j < cols.length) (hp : p < rows.length) :
    ∃ l ∈ nav.traverseGrid fuel minSize,
      (⟨cols.get ⟨j, hj⟩, rows.get ⟨p, hp⟩⟩ : Coordinate α β) ∈ l := by
  obtain ⟨hnc, hpc, hnr, hpr, hsco, hsr, href1, href2⟩ := wellFormedGrid_spec h
  have hc0 : 0 < cols.length := wf_cols_pos h
  have hr0 : 0 < rows.length := wf_rows_pos h
  have hndr : rows.Nodup := sorterConsistent_nodup hsr
  have hm : 0 < min minSize rows.length := by omega
  set m' := min minSize rows.length with hmdef
  set s := (p % m' + m' - j % m') % m' with hsdef
  have hs : s < m' := by
    rw [hsdef]
    exact Nat.mod_lt _ hm
  have hkey : (s + j) % m' = p % m' := by
    rw [hsdef]
    exact diag_mod_key m' p j hm
  have hSCeq := findStartingCoordinates_eval h hfuel minSize
  have hsm : s < ((rows.take minSize).map
      (fun r => (⟨cols.get ⟨0, wf_cols_pos h⟩, r⟩ : Coordinate α β))).length := by
    rw [List.length_map, List.length_take]
    exact hs
  have hsSC : s < (nav.findStartingCoordinates fuel minSize).length := by
    rw [hSCeq]
    exact hsm
  have hs' : s < (rows.take minSize).length := by
    rw [List.length_take]
    exact hs
  have hq : (nav.findStartingCoordinates fuel minSize)[s]? =
      some (⟨cols.get ⟨0, wf_cols_pos h⟩,
        (rows.take minSize).get ⟨s, hs'⟩⟩ : Coordinate α β) := by
    rw [hSCeq, List.getElem?_eq_getElem hsm]
    simp only [List.getElem_map]
    rfl
  have hsc2 : (nav.findStartingCoordinates fuel minSize).get ⟨s, hsSC⟩ =
      ⟨cols.get ⟨0, wf_cols_pos h⟩, (rows.take minSize).get ⟨s, hs'⟩⟩ := by
    rw [List.getElem?_eq_getElem hsSC] at hq
    exact Option.some.inj hq
  have hscrow : ((nav.findStartingCoordinates fuel minSize).get ⟨s, hsSC⟩).rowIndex =
      (rows.take minSize).get ⟨s, hs'⟩ :=
    (congrArg Coordinate.rowIndex hsc2).trans rfl
  have hSCrows : (nav.findStartingCoordinates fuel minSize).map
      (fun c => c.rowIndex) = rows.take minSize := by
    rw [hSCeq, List.map_map]
    have hco : ∀ r ∈ rows.take minSize,
        ((fun c : Coordinate α β => c.rowIndex) ∘
          (fun r => (⟨cols.get ⟨0, wf_cols_pos h⟩, r⟩ : Coordinate α β))) r = r := by
      intro r hr
      rfl
    rw [List.map_congr_left hco]
    exact List.map_id _
  have hcell := traverseGridDiagonally_mem hnr hndr cols hmin
    (show rows.length ≤ fuel by omega) hSCrows hs hscrow hj hp hkey
  refine ⟨traverseGridDiagonally fuel cols minSize
    (nav.findStartingCoordinates fuel minSize)
    ((nav.findStartingCoordinates fuel minSize).get ⟨s, hsSC⟩)
    nav.findNextRowIndex, ?_, hcell⟩
  rw [CoordinateNavigator.traverseGrid, List.mem_filter]
  constructor
  · rw [List.mem_flatMap]
    refine ⟨traverseGridDiagonally fuel cols minSize
      (nav.findStartingCoordinates fuel minSize)
      ((nav.findStartingCoordinates fuel minSize).get ⟨s, hsSC⟩)
      nav.findNextRowIndex, ?_, List.mem_cons_self _ _⟩
    rw [traverseGridDiagonallyInDirection_eval h hfuel minSize]
    exact List.mem_map.mpr
      ⟨(nav.findStartingCoordinates fuel minSize).get ⟨s, hsSC⟩,
        List.get_mem _ _ _, rfl⟩
  · exact decide_eq_true (List.length_pos.mpr (List.ne_nil_of_mem hcell))

/-- **C1.** For every positive `minShipSize` and every well-formed grid (both
axes finite acyclic chains with matching comparators), the traversal returned
by `traverseGrid(minShipSize)` intersects every axis-aligned contiguous run of
`minShipSize` on-grid cells: at least one cell of the run appears in some list
of the output. -/
theorem traverseGrid_covers_runs (h : wellFormedGrid nav cols rows = true)
    {fuel minSize : Nat} (hmin : 1 ≤ minSize)
    (hfuel : cols.length + rows.length ≤ fuel)
    {run : List (Coordinate α β)} (hne : run ≠ [])
    (hlen : run.length = minSize)
    (hdir : isVerticalRun nav run = true ∨ isHorizontalRun nav run = true)
    (hongrid : ∀ c ∈ run, c.columnIndex ∈ cols ∧ c.rowIndex ∈ rows) :
    ∃ c ∈ run, ∃ l ∈ nav.traverseGrid fuel minSize, c ∈ l := by
  obtain ⟨c, hc⟩ := List.exists_mem_of_ne_nil run hne
  obtain ⟨hcc, hcr⟩ := hongrid c hc
  obtain ⟨j, hj, hjc⟩ := List.mem_iff_getElem.mp hcc
  obtain ⟨p, hp, hpr⟩ := List.mem_iff_getElem.mp hcr
  obtain ⟨l, hl, hcl⟩ := traverseGrid_covers_cell h hmin hfuel hj hp
  refine ⟨c, hc, l, hl, ?_⟩
  have heq : (⟨cols.get ⟨j, hj⟩, rows.get ⟨p, hp⟩⟩ : Coordinate α β) = c := by
    have h1 : (⟨cols.get ⟨j, hj⟩, rows.get ⟨p, hp⟩⟩ : Coordinate α β) =
        ⟨c.columnIndex, c.rowIndex⟩ := by
      rw [List.get_eq_getElem, List.get_eq_getElem, hjc, hpr]
    exact h1.trans rfl
  rw [heq] at hcl
  exact hcl

/-- Witness for C1: the vertical length-2 run `[C2, C3]` on the spec's example
grid is intersected by the traversal for `minShipSize = 2`. -/
theorem traverseGrid_covers_runs_witness :
    ∃ c ∈ ([⟨2, 2⟩, ⟨2, 3⟩] : List (Coordinate Nat Nat)),
      ∃ l ∈ nav5.traverseGrid 12 2, c ∈ l :=
  @traverseGrid_covers_runs Nat Nat _ _ nav5 cols5 rows5 (by decide) 12 2
    (by decide) (by decide) [⟨2, 2⟩, ⟨2, 3⟩] (by decide) (by decide)
    (Or.inl (by decide)) (by decide)

end TraversalEval


end Battleship
